import Mathlib

/-!
Acquisition run controller and USB transport of the heterodyning EC-scan DSP
firmware.

A shallow embedding of `src/src/configADC.c` (and, further down, of the
transport routines of `src/src/configUSB.c`): the globals of the acquisition
run (`AR_*`, `adc_*`), the memory-mapped registers the run controller writes,
and the functions `ADC_StopSampling`, `ADC_FinishedAR`, `ADC_init`,
`ADC_StartSampling` and the interrupt handler `IRQ_ADC_SampleDone`.

Conventions.
* C globals are fields of `State`; every C function is a state transformer.
* `unsigned int` values are naturals below `2 ^ 32`; the one arithmetic
  operation that can overflow (`AR_bufferIndex++`) is reduced modulo `2 ^ 32`.
* The sample buffers hold `float` in the firmware; here they hold exact
  rationals, so the calibration formula is the exact value the C expression
  denotes before rounding.
* `configADC.h` and `general.h` are not part of the source tree: the constants
  they define are fields of `Config`, and the per-sample demodulation routine
  is a function field of `Config`.
-/

namespace ADCFirmware

/-- A sample buffer (`AR_bufferChA`, `AR_bufferChB`): slot number to stored value. -/
abbrev Buffer := Nat → ℚ

/-- Build-time constants and the external demodulation routine used by
`configADC.c`; their definitions live in headers and modules outside the
source tree, so they are parameters of the model. -/
structure Config where
  /-- Capacity of each sample buffer. -/
  MAX_SAMPLES_BUFFER_SIZE : Nat
  /-- Decimal calibration offset named after channel A. -/
  CAL_CHA_DECIMAL : Int
  /-- Decimal calibration offset named after channel B. -/
  CAL_CHB_DECIMAL : Int
  /-- Value of `OpMode` that selects intermediate-frequency operation. -/
  MODE_IF : Nat
  /-- Frame-sync enable bit of `PCG_CTLD0`. -/
  ENFSD : Nat
  /-- Clock enable bit of `PCG_CTLD0`. -/
  ENCLKD : Nat
  /-- Value programmed into `PCG_CTLD1`. -/
  PCG_CLKD_DIVIDER : Nat
  /-- Value programmed into `DIV3`. -/
  ADC_SPORT_CLK_DIV : Nat
  /-- Effect of `signal_QuadratureDemodulation_InternalLO_PtbyPt(chA, chB, index)`
  on the two buffers it receives by reference. -/
  signal_QuadratureDemodulation_InternalLO_PtbyPt : Buffer → Buffer → Nat → Buffer × Buffer

/-- Modelled from the spec: the boolean constant `FALSE` of the absent
`general.h`; the spec's flags are booleans and C encodes false as zero. -/
def FALSE : Nat := 0

/-- Modelled from the spec: the boolean constant `TRUE` of the absent
`general.h`; the spec's flags are booleans and C encodes true as one. -/
def TRUE : Nat := 1

/-- Ghost record of the calls the run controller makes, in program order. -/
inductive Call where
  /-- The handler invoked the demodulation routine with this index argument. -/
  | demod (index : Nat)
  /-- The routine `ADC_FinishedAR` was entered. -/
  | finishedAR
  /-- The routine `ADC_StopSampling` was entered. -/
  | stopSampling
  deriving DecidableEq

/-- The globals and registers read or written by the acquisition run code. -/
structure State where
  /-- Current index in the acquisition run buffers. -/
  AR_bufferIndex : Nat
  /-- Total number of samples of the acquisition run. -/
  AR_totalSamples : Nat
  /-- Continuous-sampling flag (`char`). -/
  AR_continuousSampling : Nat
  /-- Finished flag of the acquisition run. -/
  AR_finishedFlag : Nat
  /-- Operating mode. -/
  OpMode : Nat
  /-- Channel A buffer. -/
  AR_bufferChA : Buffer
  /-- Channel B buffer. -/
  AR_bufferChB : Buffer
  /-- Number of samples handed to the transport. -/
  adc_number_of_samples_to_send : Nat
  /-- Run-complete signal. -/
  adc_sample_buffer_full : Nat
  /-- Serial port 3 control register. -/
  SPCTL3 : Nat
  /-- Serial port 3 divisor register. -/
  DIV3 : Nat
  /-- Precision clock generator D control register 0. -/
  PCG_CTLD0 : Nat
  /-- Precision clock generator D control register 1. -/
  PCG_CTLD1 : Nat
  /-- Ghost call log. -/
  calls : List Call

/-- `ADC_StopSampling`: `*pPCG_CTLD0 = 0;`. -/
def ADC_StopSampling (s : State) : State :=
  { s with PCG_CTLD0 := 0, calls := s.calls ++ [Call.stopSampling] }

/-- `ADC_FinishedAR`: publish the sample count, raise the buffer-full signal,
stop the clock generator in either branch and set the finished flag. -/
def ADC_FinishedAR (s : State) : State :=
  let s := { s with calls := s.calls ++ [Call.finishedAR] }
  let s := { s with adc_number_of_samples_to_send := s.AR_bufferIndex }
  let s := { s with adc_sample_buffer_full := 1 }
  let s : State :=
    if s.AR_continuousSampling ≠ 0 then
      ADC_StopSampling s
    else
      { ADC_StopSampling s with AR_finishedFlag := TRUE }
  { s with AR_finishedFlag := TRUE }

/-- `ADC_init`: clear `SPCTL3`, program the divisor and the clock generator.
The DDS collaborator calls and the interrupt dispatcher registration have no
effect on the modelled state. -/
def ADC_init (cfg : Config) (s : State) (sample_period : Nat) : State :=
  let _ := sample_period
  let s := { s with SPCTL3 := 0 }
  let s := { s with DIV3 := cfg.ADC_SPORT_CLK_DIV }
  let s := { s with PCG_CTLD1 := cfg.PCG_CLKD_DIVIDER }
  { s with PCG_CTLD0 := 250 ||| cfg.ENFSD ||| cfg.ENCLKD }

/-- `ADC_StartSampling`: reset the index, record the total and the continuous
flag, then call `ADC_init`. In IF mode it also calls `Init_IIR_BPsoft`, which
only touches filter state outside this model. -/
def ADC_StartSampling (cfg : Config) (s : State) (number_samples sample_period : Nat)
    (continuous_sampling : Nat) : State :=
  let s := { s with AR_bufferIndex := 0 }
  let s := { s with AR_totalSamples := number_samples }
  let s := { s with AR_continuousSampling := continuous_sampling }
  ADC_init cfg s sample_period

/-- The expression `(code - offset) * 2.5 / 65536` over exact rationals. -/
def calibrate (code : Nat) (offset : Int) : ℚ :=
  (((code : Int) - offset : Int) : ℚ) * (5 / 2) / 65536

/-- The expression `(sample >> 16) & 0xffff`. -/
def highCode (sample : Nat) : Nat := (sample >>> 16) &&& 0xffff

/-- The expression `sample & 0xffff`. -/
def lowCode (sample : Nat) : Nat := sample &&& 0xffff

/-- `IRQ_ADC_SampleDone`, given the word read from `RXSP3A`: disable the serial
port, store the calibrated high half-word in channel A, then either call the
demodulation routine (IF mode) or store the calibrated low half-word in
channel B, and finally test for the end of the run. -/
def IRQ_ADC_SampleDone (cfg : Config) (s : State) (sample : Nat) : State :=
  let s := { s with SPCTL3 := 0 }
  let slot := s.AR_bufferIndex % cfg.MAX_SAMPLES_BUFFER_SIZE
  let chA := Function.update s.AR_bufferChA slot (calibrate (highCode sample) cfg.CAL_CHB_DECIMAL)
  let s := { s with AR_bufferChA := chA }
  let s : State :=
    if s.OpMode = cfg.MODE_IF then
      let r := cfg.signal_QuadratureDemodulation_InternalLO_PtbyPt
        s.AR_bufferChA s.AR_bufferChB s.AR_bufferIndex
      { s with AR_bufferChA := r.1, AR_bufferChB := r.2,
               calls := s.calls ++ [Call.demod s.AR_bufferIndex] }
    else
      let chB := Function.update s.AR_bufferChB slot (calibrate (lowCode sample) cfg.CAL_CHA_DECIMAL)
      { s with AR_bufferChB := chB }
  if s.AR_bufferIndex = s.AR_totalSamples then
    ADC_FinishedAR s
  else if s.AR_continuousSampling = FALSE then
    { s with AR_bufferIndex := (s.AR_bufferIndex + 1) % 2 ^ 32 }
  else
    s

/-- The state after a sequence of sample-done interrupts, one received word each. -/
def runEvents (cfg : Config) (s : State) (samples : List Nat) : State :=
  samples.foldl (IRQ_ADC_SampleDone cfg) s

/-- Index arguments of the demodulation calls in a call log, in order. -/
def demodArgs : List Call → List Nat
  | [] => []
  | Call.demod i :: cs => i :: demodArgs cs
  | _ :: cs => demodArgs cs

/-- Number of entries of `ADC_FinishedAR` in a call log. -/
def finishedCount (cs : List Call) : Nat := cs.count Call.finishedAR

/-- Number of entries of `ADC_StopSampling` in a call log. -/
def stopCount (cs : List Call) : Nat := cs.count Call.stopSampling

/-- A board configuration used for concrete evaluations: capacity four,
distinct calibration offsets, and a demodulation routine that writes the
index it receives into channel B. -/
def demoCfg : Config where
  MAX_SAMPLES_BUFFER_SIZE := 4
  CAL_CHA_DECIMAL := 100
  CAL_CHB_DECIMAL := 200
  MODE_IF := 0
  ENFSD := 2 ^ 30
  ENCLKD := 2 ^ 31
  PCG_CLKD_DIVIDER := 4
  ADC_SPORT_CLK_DIV := 8
  signal_QuadratureDemodulation_InternalLO_PtbyPt := fun a b i => (a, Function.update b 0 i)

/-- The state after reset: everything zero, empty buffers, empty call log,
operating mode given. -/
def idleState (mode : Nat) : State where
  AR_bufferIndex := 0
  AR_totalSamples := 0
  AR_continuousSampling := 0
  AR_finishedFlag := 0
  OpMode := mode
  AR_bufferChA := fun _ => 0
  AR_bufferChB := fun _ => 0
  adc_number_of_samples_to_send := 0
  adc_sample_buffer_full := 0
  SPCTL3 := 0
  DIV3 := 0
  PCG_CTLD0 := 0
  PCG_CTLD1 := 0
  calls := []

/-- A continuous-mode state in IQ mode whose index has reached its total (both
three) while the clock generator is still enabled. -/
def atTotalState : State :=
  { idleState 1 with AR_bufferIndex := 3, AR_totalSamples := 3, AR_continuousSampling := TRUE,
                     PCG_CTLD0 := 250 }

/-- An IQ-mode state at logical index four of a run of total nine. -/
def wrapState : State :=
  { idleState 1 with AR_bufferIndex := 4, AR_totalSamples := 9 }

/-! ## USB transport (`src/src/configUSB.c`)

The target is an ADSP-21489, a word-addressed SHARC: `char`, `short` and `int`
are all 32-bit words there (the routine `decode16` of the same file reverses
sixteen bits held in a `char`). Conversions to the signed types go through
`toSigned`, conversions to the unsigned types through `toUnsigned`.

The USB bridge sits behind one bus address. What it presents is described by a
`Bus`: the word seen by each status read and the word delivered by each
data-pipe read. The firmware-side state counts the accesses made so far and
keeps a ghost log of poll outcomes and data-pipe transfers. -/

/-- Constants of the absent `configUSB.h`, taken as parameters. -/
structure USBConfig where
  /-- Initial value of the poll counter. -/
  USB_READ_TIMEOUT : Nat
  /-- Status bit: a byte is waiting in the receive FIFO. -/
  USB_DATA_AVAILABLE : Nat
  /-- Status bit: the transmit FIFO can take a byte. -/
  USB_SPACE_AVAILABLE : Nat
  /-- Marker byte that starts a packet. -/
  USB_START_OF_PACKET : Int
  /-- Value returned to signal a transport error. -/
  USB_ERROR_FLAG : Int

/-- What the USB bridge presents on the bus. -/
structure Bus where
  /-- Word seen by status read number `n`, when `r` data-pipe reads and `w`
  data-pipe writes have been made before it. -/
  statusAt : (n r w : Nat) → Nat
  /-- Word delivered by data-pipe read number `r`. -/
  dataAt : (r : Nat) → Nat

/-- Ghost record of the transport activity, in program order. -/
inductive USBEvent where
  /-- A call of `USB_pollDataAvailable` returned this result. -/
  | pollData (ok : Bool)
  /-- A call of `USB_pollSpaceAvailable` returned this result. -/
  | pollSpace (ok : Bool)
  /-- This word was read from the data pipe. -/
  | read (byte : Nat)
  /-- This word was written to the data pipe. -/
  | write (byte : Nat)
  deriving DecidableEq

/-- Bus accesses made so far, and the ghost log. -/
structure USBState where
  /-- Number of status reads made. -/
  statusReads : Nat
  /-- Number of data-pipe reads made. -/
  dataReads : Nat
  /-- Number of data-pipe writes made. -/
  dataWrites : Nat
  /-- Ghost log. -/
  log : List USBEvent

/-- First argument of `USB_access`. -/
inductive USBPort where
  /-- Status register (`A0` high). -/
  | USB_STATUS
  /-- Data pipe (`A0` low). -/
  | USB_DATA_PIPE
  deriving DecidableEq

/-- Second argument of `USB_access`. -/
inductive USBDir where
  /-- Read access. -/
  | USB_READ
  /-- Write access. -/
  | USB_WRITE
  deriving DecidableEq

/-- Conversion of an integer value to a signed 32-bit type (`char`, `int`). -/
def toSigned (v : Int) : Int := (v + 2 ^ 31) % 2 ^ 32 - 2 ^ 31

/-- Conversion of an integer value to an unsigned 32-bit type
(`unsigned char`, `unsigned short`, `unsigned int`). -/
def toUnsigned (v : Int) : Nat := (v % 2 ^ 32).toNat

/-- Conversion of an integer value to `bool`. -/
def toBool (v : Int) : Bool := decide (v ≠ 0)

/-- `USB_access`: one bus cycle. A read returns the word on the bus; a write
puts `data` on the bus and its return value is unspecified (zero here). -/
def USB_access (bus : Bus) (s : USBState) (access : USBPort) (readwrite : USBDir)
    (data : Nat) : Nat × USBState :=
  match readwrite, access with
  | USBDir.USB_READ, USBPort.USB_STATUS =>
    (bus.statusAt s.statusReads s.dataReads s.dataWrites,
     { s with statusReads := s.statusReads + 1 })
  | USBDir.USB_READ, USBPort.USB_DATA_PIPE =>
    (bus.dataAt s.dataReads,
     { s with dataReads := s.dataReads + 1,
              log := s.log ++ [USBEvent.read (bus.dataAt s.dataReads)] })
  | USBDir.USB_WRITE, USBPort.USB_DATA_PIPE =>
    (0, { s with dataWrites := s.dataWrites + 1, log := s.log ++ [USBEvent.write data] })
  | USBDir.USB_WRITE, USBPort.USB_STATUS => (0, s)

/-- `USB_isPacketStart`: `data == USB_START_OF_PACKET`. -/
def USB_isPacketStart (cfg : USBConfig) (data : Int) : Bool :=
  decide (data = cfg.USB_START_OF_PACKET)

/-- The polling loop `while(!(status & bit)){ temp--; if(temp==0) return FALSE; }
return TRUE;` entered with the counter at `temp`. A counter of zero at the loop
head is not reached from a positive start. -/
def pollLoop (bus : Bus) (bit : Nat) : Nat → USBState → Bool × USBState
  | 0, s => (false, s)
  | temp + 1, s =>
    let r := USB_access bus s USBPort.USB_STATUS USBDir.USB_READ 0
    if r.1 &&& bit ≠ 0 then (true, r.2)
    else if temp = 0 then (false, r.2)
    else pollLoop bus bit temp r.2

/-- Number of decrements that bring the 32-bit poll counter to zero: the start
value itself, or a full wrap-around when the start value is zero. -/
def pollCount (timeout : Nat) : Nat := if timeout = 0 then 2 ^ 32 else timeout

/-- `USB_pollDataAvailable`. -/
def USB_pollDataAvailable (cfg : USBConfig) (bus : Bus) (s : USBState) : Bool × USBState :=
  let r := pollLoop bus cfg.USB_DATA_AVAILABLE (pollCount cfg.USB_READ_TIMEOUT) s
  (r.1, { r.2 with log := r.2.log ++ [USBEvent.pollData r.1] })

/-- `USB_pollSpaceAvailable`. -/
def USB_pollSpaceAvailable (cfg : USBConfig) (bus : Bus) (s : USBState) : Bool × USBState :=
  let r := pollLoop bus cfg.USB_SPACE_AVAILABLE (pollCount cfg.USB_READ_TIMEOUT) s
  (r.1, { r.2 with log := r.2.log ++ [USBEvent.pollSpace r.1] })

/-- `USB_purge`: `while(USB_pollDataAvailable()){ read the data pipe } return TRUE;`.
The loop has no bound of its own, so the model takes a number of allowed
iterations and returns `none` when it is exhausted. -/
def USB_purge (cfg : USBConfig) (bus : Bus) : Nat → USBState → Option (Int × USBState)
  | 0, _ => none
  | fuel + 1, s =>
    let p := USB_pollDataAvailable cfg bus s
    if p.1 then
      USB_purge cfg bus fuel (USB_access bus p.2 USBPort.USB_DATA_PIPE USBDir.USB_READ 0).2
    else
      some ((TRUE : Int), p.2)

/-- `USB_readStartOfPacket`: the result type is `bool`. -/
def USB_readStartOfPacket (cfg : USBConfig) (bus : Bus) (s : USBState) : Bool × USBState :=
  let p := USB_pollDataAvailable cfg bus s
  if p.1 = false then
    (toBool cfg.USB_ERROR_FLAG, p.2)
  else
    let a := USB_access bus p.2 USBPort.USB_DATA_PIPE USBDir.USB_READ 0
    let usbdata := toSigned a.1
    (USB_isPacketStart cfg usbdata, a.2)

/-- `USB_readPacketSize`: the result type is `unsigned short`. -/
def USB_readPacketSize (cfg : USBConfig) (bus : Bus) (s : USBState) : Nat × USBState :=
  let p := USB_pollDataAvailable cfg bus s
  if p.1 = false then
    (toUnsigned cfg.USB_ERROR_FLAG, p.2)
  else
    let a := USB_access bus p.2 USBPort.USB_DATA_PIPE USBDir.USB_READ 0
    let usbdata := toSigned a.1
    let packetsize := toUnsigned (usbdata * 2 ^ 8)
    let p := USB_pollDataAvailable cfg bus a.2
    if p.1 = false then
      (toUnsigned cfg.USB_ERROR_FLAG, p.2)
    else
      let a := USB_access bus p.2 USBPort.USB_DATA_PIPE USBDir.USB_READ 0
      let usbdata := toSigned a.1
      let packetsize := packetsize ||| toUnsigned usbdata
      (packetsize, a.2)

/-- The loop of `USB_readPayload` with `remaining` iterations to go, the next
one at `index`. -/
def readPayloadLoop (cfg : USBConfig) (bus : Bus) :
    (remaining index : Nat) → (Nat → Nat) → USBState → Int × (Nat → Nat) × USBState
  | 0, _, payload_buffer, s => ((TRUE : Int), payload_buffer, s)
  | remaining + 1, index, payload_buffer, s =>
    let p := USB_pollDataAvailable cfg bus s
    if p.1 = false then
      (cfg.USB_ERROR_FLAG, payload_buffer, p.2)
    else
      let a := USB_access bus p.2 USBPort.USB_DATA_PIPE USBDir.USB_READ 0
      readPayloadLoop cfg bus remaining (index + 1)
        (Function.update payload_buffer index (toUnsigned a.1)) a.2

/-- `USB_readPayload`: `payload_size` is the `int` value of `usb_size`, and the
loop runs for `index` from zero while `index < payload_size`. -/
def USB_readPayload (cfg : USBConfig) (bus : Bus) (usb_size : Nat)
    (payload_buffer : Nat → Nat) (s : USBState) : Int × (Nat → Nat) × USBState :=
  let payload_size := toSigned usb_size
  readPayloadLoop cfg bus payload_size.toNat 0 payload_buffer s

/-- The number of data-available polls that succeed before the first timeout
when up to `n` bytes are requested one after another from state `s`, every
successful poll being followed by one data-pipe read. This is the `k` of the
transport contract; it depends on the bus only, not on `USB_readPayload`. -/
def payloadPolls (cfg : USBConfig) (bus : Bus) : (n : Nat) → USBState → Nat
  | 0, _ => 0
  | n + 1, s =>
    if (USB_pollDataAvailable cfg bus s).1 = true then
      payloadPolls cfg bus n
        (USB_access bus (USB_pollDataAvailable cfg bus s).2
          USBPort.USB_DATA_PIPE USBDir.USB_READ 0).2 + 1
    else 0

/-- Log of a flow-controlled reception of the given bytes, every poll
succeeding. -/
def recvTrace : List Nat → List USBEvent
  | [] => []
  | b :: bs => USBEvent.pollData true :: USBEvent.read b :: recvTrace bs

/-- The words delivered by data-pipe reads number `r`, ..., `r + k - 1`. -/
def delivered (bus : Bus) (r k : Nat) : List Nat := (List.range' r k).map bus.dataAt

/-- The input FIFO as a finite queue with no new arrivals: the status word
shows data available exactly while fewer bytes have been read than were
queued, and the data pipe delivers the queued bytes in order (zero once the
queue is exhausted). -/
def fifoBus (cfg : USBConfig) (queue : List Nat) : Bus where
  statusAt := fun _ r _ => if r < queue.length then cfg.USB_DATA_AVAILABLE else 0
  dataAt := fun r => queue.getD r 0

/-- The bytes still queued in `fifoBus` after the reads recorded in a state. -/
def fifoQueue (queue : List Nat) (s : USBState) : List Nat := queue.drop s.dataReads

/-- A bridge that never shows data or space and delivers zeros. -/
def silentBus : Bus where
  statusAt := fun _ _ _ => 0
  dataAt := fun _ => 0

/-- A bridge that always shows every status bit and delivers the listed bytes
in order (zero afterwards). -/
def readyBus (bytes : List Nat) : Bus where
  statusAt := fun _ _ _ => 0xffff
  dataAt := fun r => bytes.getD r 0

/-- Transport constants used for concrete evaluations. -/
def demoUSB : USBConfig where
  USB_READ_TIMEOUT := 3
  USB_DATA_AVAILABLE := 1
  USB_SPACE_AVAILABLE := 2
  USB_START_OF_PACKET := 0x55
  USB_ERROR_FLAG := -1

/-- The same transport constants with an error flag of zero. -/
def zeroFlagUSB : USBConfig :=
  { demoUSB with USB_ERROR_FLAG := 0 }

/-- The transport state before any bus access. -/
def usbIdle : USBState where
  statusReads := 0
  dataReads := 0
  dataWrites := 0
  log := []

/-! ## Single-event lemmas -/

/-- Both branches of `ADC_FinishedAR` have the same net effect. -/
theorem finishedAR_eq (s : State) :
    ADC_FinishedAR s =
      { s with calls := s.calls ++ [Call.finishedAR, Call.stopSampling],
               adc_number_of_samples_to_send := s.AR_bufferIndex,
               adc_sample_buffer_full := 1,
               PCG_CTLD0 := 0,
               AR_finishedFlag := TRUE } := by
  unfold ADC_FinishedAR ADC_StopSampling
  by_cases hc : s.AR_continuousSampling = 0 <;> simp [hc]

theorem sampleDone_index (cfg : Config) (s : State) (w : Nat) :
    (IRQ_ADC_SampleDone cfg s w).AR_bufferIndex =
      if s.AR_bufferIndex = s.AR_totalSamples then s.AR_bufferIndex
      else if s.AR_continuousSampling = FALSE then (s.AR_bufferIndex + 1) % 2 ^ 32
      else s.AR_bufferIndex := by
  simp only [IRQ_ADC_SampleDone, finishedAR_eq]
  by_cases hm : s.OpMode = cfg.MODE_IF <;> by_cases he : s.AR_bufferIndex = s.AR_totalSamples <;>
    by_cases hc : s.AR_continuousSampling = FALSE <;> simp [hm, he, hc]

theorem sampleDone_total (cfg : Config) (s : State) (w : Nat) :
    (IRQ_ADC_SampleDone cfg s w).AR_totalSamples = s.AR_totalSamples := by
  simp only [IRQ_ADC_SampleDone, finishedAR_eq]
  by_cases hm : s.OpMode = cfg.MODE_IF <;> by_cases he : s.AR_bufferIndex = s.AR_totalSamples <;>
    by_cases hc : s.AR_continuousSampling = FALSE <;> simp [hm, he, hc]

theorem sampleDone_continuous (cfg : Config) (s : State) (w : Nat) :
    (IRQ_ADC_SampleDone cfg s w).AR_continuousSampling = s.AR_continuousSampling := by
  simp only [IRQ_ADC_SampleDone, finishedAR_eq]
  by_cases hm : s.OpMode = cfg.MODE_IF <;> by_cases he : s.AR_bufferIndex = s.AR_totalSamples <;>
    by_cases hc : s.AR_continuousSampling = FALSE <;> simp [hm, he, hc]

theorem sampleDone_mode (cfg : Config) (s : State) (w : Nat) :
    (IRQ_ADC_SampleDone cfg s w).OpMode = s.OpMode := by
  simp only [IRQ_ADC_SampleDone, finishedAR_eq]
  by_cases hm : s.OpMode = cfg.MODE_IF <;> by_cases he : s.AR_bufferIndex = s.AR_totalSamples <;>
    by_cases hc : s.AR_continuousSampling = FALSE <;> simp [hm, he, hc]

theorem sampleDone_flag (cfg : Config) (s : State) (w : Nat) :
    (IRQ_ADC_SampleDone cfg s w).AR_finishedFlag =
      if s.AR_bufferIndex = s.AR_totalSamples then TRUE else s.AR_finishedFlag := by
  simp only [IRQ_ADC_SampleDone, finishedAR_eq]
  by_cases hm : s.OpMode = cfg.MODE_IF <;> by_cases he : s.AR_bufferIndex = s.AR_totalSamples <;>
    by_cases hc : s.AR_continuousSampling = FALSE <;> simp [hm, he, hc]

theorem sampleDone_pcg (cfg : Config) (s : State) (w : Nat) :
    (IRQ_ADC_SampleDone cfg s w).PCG_CTLD0 =
      if s.AR_bufferIndex = s.AR_totalSamples then 0 else s.PCG_CTLD0 := by
  simp only [IRQ_ADC_SampleDone, finishedAR_eq]
  by_cases hm : s.OpMode = cfg.MODE_IF <;> by_cases he : s.AR_bufferIndex = s.AR_totalSamples <;>
    by_cases hc : s.AR_continuousSampling = FALSE <;> simp [hm, he, hc]

theorem sampleDone_full (cfg : Config) (s : State) (w : Nat) :
    (IRQ_ADC_SampleDone cfg s w).adc_sample_buffer_full =
      if s.AR_bufferIndex = s.AR_totalSamples then 1 else s.adc_sample_buffer_full := by
  simp only [IRQ_ADC_SampleDone, finishedAR_eq]
  by_cases hm : s.OpMode = cfg.MODE_IF <;> by_cases he : s.AR_bufferIndex = s.AR_totalSamples <;>
    by_cases hc : s.AR_continuousSampling = FALSE <;> simp [hm, he, hc]

theorem sampleDone_toSend (cfg : Config) (s : State) (w : Nat) :
    (IRQ_ADC_SampleDone cfg s w).adc_number_of_samples_to_send =
      if s.AR_bufferIndex = s.AR_totalSamples then s.AR_bufferIndex
      else s.adc_number_of_samples_to_send := by
  simp only [IRQ_ADC_SampleDone, finishedAR_eq]
  by_cases hm : s.OpMode = cfg.MODE_IF <;> by_cases he : s.AR_bufferIndex = s.AR_totalSamples <;>
    by_cases hc : s.AR_continuousSampling = FALSE <;> simp [hm, he, hc]

theorem sampleDone_calls (cfg : Config) (s : State) (w : Nat) :
    (IRQ_ADC_SampleDone cfg s w).calls =
      s.calls ++ (if s.OpMode = cfg.MODE_IF then [Call.demod s.AR_bufferIndex] else [])
        ++ (if s.AR_bufferIndex = s.AR_totalSamples then [Call.finishedAR, Call.stopSampling]
            else []) := by
  simp only [IRQ_ADC_SampleDone, finishedAR_eq]
  by_cases hm : s.OpMode = cfg.MODE_IF <;> by_cases he : s.AR_bufferIndex = s.AR_totalSamples <;>
    by_cases hc : s.AR_continuousSampling = FALSE <;> simp [hm, he, hc]

/-- The buffers after one event: the handler's own stores, then (IF mode) the
demodulation routine applied to the buffers as the handler left them. -/
theorem sampleDone_buffers (cfg : Config) (s : State) (w : Nat) :
    ((IRQ_ADC_SampleDone cfg s w).AR_bufferChA, (IRQ_ADC_SampleDone cfg s w).AR_bufferChB) =
      if s.OpMode = cfg.MODE_IF then
        cfg.signal_QuadratureDemodulation_InternalLO_PtbyPt
          (Function.update s.AR_bufferChA (s.AR_bufferIndex % cfg.MAX_SAMPLES_BUFFER_SIZE)
            (calibrate (highCode w) cfg.CAL_CHB_DECIMAL))
          s.AR_bufferChB s.AR_bufferIndex
      else
        (Function.update s.AR_bufferChA (s.AR_bufferIndex % cfg.MAX_SAMPLES_BUFFER_SIZE)
            (calibrate (highCode w) cfg.CAL_CHB_DECIMAL),
         Function.update s.AR_bufferChB (s.AR_bufferIndex % cfg.MAX_SAMPLES_BUFFER_SIZE)
            (calibrate (lowCode w) cfg.CAL_CHA_DECIMAL)) := by
  simp only [IRQ_ADC_SampleDone, finishedAR_eq]
  by_cases hm : s.OpMode = cfg.MODE_IF <;> by_cases he : s.AR_bufferIndex = s.AR_totalSamples <;>
    by_cases hc : s.AR_continuousSampling = FALSE <;> simp [hm, he, hc]

/-! ## Start of a run -/

theorem start_index (cfg : Config) (s : State) (n p c : Nat) :
    (ADC_StartSampling cfg s n p c).AR_bufferIndex = 0 := rfl

theorem start_total (cfg : Config) (s : State) (n p c : Nat) :
    (ADC_StartSampling cfg s n p c).AR_totalSamples = n := rfl

theorem start_continuous (cfg : Config) (s : State) (n p c : Nat) :
    (ADC_StartSampling cfg s n p c).AR_continuousSampling = c := rfl

theorem start_flag (cfg : Config) (s : State) (n p c : Nat) :
    (ADC_StartSampling cfg s n p c).AR_finishedFlag = s.AR_finishedFlag := rfl

theorem start_mode (cfg : Config) (s : State) (n p c : Nat) :
    (ADC_StartSampling cfg s n p c).OpMode = s.OpMode := rfl

theorem start_calls (cfg : Config) (s : State) (n p c : Nat) :
    (ADC_StartSampling cfg s n p c).calls = s.calls := rfl

theorem start_pcg (cfg : Config) (s : State) (n p c : Nat) :
    (ADC_StartSampling cfg s n p c).PCG_CTLD0 = 250 ||| cfg.ENFSD ||| cfg.ENCLKD := rfl

/-- The value `ADC_init` programs into `PCG_CTLD0` is never zero. -/
theorem pcg_running_ne_zero (cfg : Config) : 250 ||| cfg.ENFSD ||| cfg.ENCLKD ≠ 0 := by
  intro h
  have hb : Nat.testBit (250 ||| cfg.ENFSD ||| cfg.ENCLKD) 1 = true := by
    have h250 : Nat.testBit 250 1 = true := by decide
    simp [Nat.testBit_or, h250]
  rw [h] at hb
  simp at hb

theorem runEvents_nil (cfg : Config) (s : State) : runEvents cfg s [] = s := rfl

theorem runEvents_cons (cfg : Config) (s : State) (w : Nat) (ws : List Nat) :
    runEvents cfg s (w :: ws) = runEvents cfg (IRQ_ADC_SampleDone cfg s w) ws := rfl

theorem runEvents_append (cfg : Config) (s : State) (ws vs : List Nat) :
    runEvents cfg s (ws ++ vs) = runEvents cfg (runEvents cfg s ws) vs := by
  simp [runEvents, List.foldl_append]

theorem demodArgs_append (xs ys : List Call) :
    demodArgs (xs ++ ys) = demodArgs xs ++ demodArgs ys := by
  induction xs with
  | nil => rfl
  | cons c cs ih => cases c <;> simp [demodArgs, ih]

/-! ## Runs of several events -/

/-- What a stretch of events does not change. -/
theorem runEvents_static (cfg : Config) (s : State) (ws : List Nat) :
    (runEvents cfg s ws).AR_totalSamples = s.AR_totalSamples ∧
    (runEvents cfg s ws).AR_continuousSampling = s.AR_continuousSampling ∧
    (runEvents cfg s ws).OpMode = s.OpMode := by
  induction ws generalizing s with
  | nil => exact ⟨rfl, rfl, rfl⟩
  | cons w ws ih =>
    rw [runEvents_cons]
    obtain ⟨h1, h2, h3⟩ := ih (IRQ_ADC_SampleDone cfg s w)
    rw [h1, h2, h3, sampleDone_total, sampleDone_continuous, sampleDone_mode]
    exact ⟨rfl, rfl, rfl⟩

/-- One event keeps the index at or below the total. -/
theorem sampleDone_le (cfg : Config) (s : State) (w : Nat)
    (h : s.AR_bufferIndex ≤ s.AR_totalSamples) :
    (IRQ_ADC_SampleDone cfg s w).AR_bufferIndex ≤ (IRQ_ADC_SampleDone cfg s w).AR_totalSamples := by
  rw [sampleDone_index, sampleDone_total]
  split_ifs with he hc
  · exact h
  · have hlt : s.AR_bufferIndex < s.AR_totalSamples := lt_of_le_of_ne h he
    exact le_trans (Nat.mod_le _ _) hlt
  · exact h

/-- A stretch of events keeps the index at or below the total. -/
theorem runEvents_le (cfg : Config) (s : State) (ws : List Nat)
    (h : s.AR_bufferIndex ≤ s.AR_totalSamples) :
    (runEvents cfg s ws).AR_bufferIndex ≤ (runEvents cfg s ws).AR_totalSamples := by
  induction ws generalizing s with
  | nil => exact h
  | cons w ws ih =>
    rw [runEvents_cons]
    exact ih _ (sampleDone_le cfg s w h)

/-- While a finite run has not reached its total, every event of a stretch
advances the index by one and touches neither the finished flag nor the clock
generator; in IF mode it logs one demodulation call per event. -/
theorem runEvents_finite_prefix (cfg : Config) (s : State) (ws : List Nat)
    (hc : s.AR_continuousSampling = FALSE)
    (hN : s.AR_totalSamples < 2 ^ 32)
    (hlen : s.AR_bufferIndex + ws.length ≤ s.AR_totalSamples) :
    (runEvents cfg s ws).AR_bufferIndex = s.AR_bufferIndex + ws.length ∧
    (runEvents cfg s ws).AR_finishedFlag = s.AR_finishedFlag ∧
    (runEvents cfg s ws).PCG_CTLD0 = s.PCG_CTLD0 ∧
    (runEvents cfg s ws).calls =
      s.calls ++ (if s.OpMode = cfg.MODE_IF
        then (List.range' s.AR_bufferIndex ws.length).map Call.demod else []) := by
  induction ws generalizing s with
  | nil => simp [runEvents_nil]
  | cons w ws ih =>
    simp only [List.length_cons] at hlen
    have hne : s.AR_bufferIndex ≠ s.AR_totalSamples := by omega
    have hidx : (IRQ_ADC_SampleDone cfg s w).AR_bufferIndex = s.AR_bufferIndex + 1 := by
      rw [sampleDone_index, if_neg hne, if_pos hc]
      exact Nat.mod_eq_of_lt (by omega)
    have hrec := ih (IRQ_ADC_SampleDone cfg s w)
      (by rw [sampleDone_continuous]; exact hc)
      (by rw [sampleDone_total]; exact hN)
      (by rw [hidx, sampleDone_total]; omega)
    rw [runEvents_cons]
    obtain ⟨h1, h2, h3, h4⟩ := hrec
    refine ⟨?_, ?_, ?_, ?_⟩
    · rw [h1, hidx, List.length_cons]; omega
    · rw [h2, sampleDone_flag, if_neg hne]
    · rw [h3, sampleDone_pcg, if_neg hne]
    · rw [h4, sampleDone_calls, sampleDone_mode, hidx, if_neg hne]
      by_cases hm : s.OpMode = cfg.MODE_IF
      · simp [hm, List.range'_succ]
      · simp [hm]

/-- In a continuous run whose index differs from the total, events change
neither the index, the finished flag nor the clock generator; in IF mode each
event logs a demodulation call with the same index. -/
theorem runEvents_continuous (cfg : Config) (s : State) (ws : List Nat)
    (hc : s.AR_continuousSampling ≠ FALSE)
    (hne : s.AR_bufferIndex ≠ s.AR_totalSamples) :
    (runEvents cfg s ws).AR_bufferIndex = s.AR_bufferIndex ∧
    (runEvents cfg s ws).AR_finishedFlag = s.AR_finishedFlag ∧
    (runEvents cfg s ws).PCG_CTLD0 = s.PCG_CTLD0 ∧
    (runEvents cfg s ws).calls =
      s.calls ++ (if s.OpMode = cfg.MODE_IF
        then List.replicate ws.length (Call.demod s.AR_bufferIndex) else []) := by
  induction ws generalizing s with
  | nil => simp [runEvents_nil]
  | cons w ws ih =>
    have hidx : (IRQ_ADC_SampleDone cfg s w).AR_bufferIndex = s.AR_bufferIndex := by
      rw [sampleDone_index, if_neg hne, if_neg hc]
    have hrec := ih (IRQ_ADC_SampleDone cfg s w)
      (by rw [sampleDone_continuous]; exact hc)
      (by rw [hidx, sampleDone_total]; exact hne)
    rw [runEvents_cons]
    obtain ⟨h1, h2, h3, h4⟩ := hrec
    refine ⟨?_, ?_, ?_, ?_⟩
    · rw [h1, hidx]
    · rw [h2, sampleDone_flag, if_neg hne]
    · rw [h3, sampleDone_pcg, if_neg hne]
    · rw [h4, sampleDone_calls, sampleDone_mode, hidx, if_neg hne]
      by_cases hm : s.OpMode = cfg.MODE_IF
      · simp [hm, List.replicate_succ]
      · simp [hm]

theorem demodArgs_map_demod (xs : List Nat) : demodArgs (xs.map Call.demod) = xs := by
  induction xs with
  | nil => rfl
  | cons x xs ih => simp [demodArgs, ih]

theorem finishedCount_map_demod (xs : List Nat) : finishedCount (xs.map Call.demod) = 0 := by
  induction xs with
  | nil => rfl
  | cons x xs ih =>
    simp only [finishedCount] at ih
    simp [finishedCount, List.count_cons, ih]

theorem stopCount_map_demod (xs : List Nat) : stopCount (xs.map Call.demod) = 0 := by
  induction xs with
  | nil => rfl
  | cons x xs ih =>
    simp only [stopCount] at ih
    simp [stopCount, List.count_cons, ih]

theorem finishedCount_append (xs ys : List Call) :
    finishedCount (xs ++ ys) = finishedCount xs + finishedCount ys := by
  simp [finishedCount, List.count_append]

theorem stopCount_append (xs ys : List Call) :
    stopCount (xs ++ ys) = stopCount xs + stopCount ys := by
  simp [stopCount, List.count_append]

/-- A finite run that is `ws.length` events short of its total reaches the
total with those events and finishes on the event after them. -/
theorem runEvents_finite_finish (cfg : Config) (s : State) (ws : List Nat) (w : Nat)
    (hc : s.AR_continuousSampling = FALSE)
    (hN : s.AR_totalSamples < 2 ^ 32)
    (hlen : s.AR_bufferIndex + ws.length = s.AR_totalSamples) :
    (runEvents cfg s (ws ++ [w])).AR_bufferIndex = s.AR_totalSamples ∧
    (runEvents cfg s (ws ++ [w])).AR_finishedFlag = TRUE ∧
    (runEvents cfg s (ws ++ [w])).PCG_CTLD0 = 0 ∧
    (runEvents cfg s (ws ++ [w])).adc_sample_buffer_full = 1 ∧
    (runEvents cfg s (ws ++ [w])).adc_number_of_samples_to_send = s.AR_totalSamples ∧
    (runEvents cfg s (ws ++ [w])).calls =
      s.calls ++ (if s.OpMode = cfg.MODE_IF
        then (List.range' s.AR_bufferIndex (ws.length + 1)).map Call.demod else [])
        ++ [Call.finishedAR, Call.stopSampling] := by
  obtain ⟨h1, _, _, h4⟩ := runEvents_finite_prefix cfg s ws hc hN (le_of_eq hlen)
  obtain ⟨g1, _, g3⟩ := runEvents_static cfg s ws
  have he : (runEvents cfg s ws).AR_bufferIndex = (runEvents cfg s ws).AR_totalSamples := by
    rw [h1, g1, hlen]
  rw [runEvents_append, runEvents_cons, runEvents_nil]
  refine ⟨?_, ?_, ?_, ?_, ?_, ?_⟩
  · rw [sampleDone_index, if_pos he, h1, hlen]
  · rw [sampleDone_flag, if_pos he]
  · rw [sampleDone_pcg, if_pos he]
  · rw [sampleDone_full, if_pos he]
  · rw [sampleDone_toSend, if_pos he, h1, hlen]
  · rw [sampleDone_calls, if_pos he, h4, g3, h1]
    by_cases hm : s.OpMode = cfg.MODE_IF
    · simp [hm, List.range'_concat]
    · simp [hm]

/-! ## The acquisition run claims -/

/-- C1 (evaluation at the failing input): from the reset state in IQ mode, a
finite run of one sample is not finished after its one sample-done event: the
index has reached the total, but the finished flag is still `FALSE`, the clock
generator is still programmed to run and `ADC_FinishedAR` has not been entered;
only the second event finishes the run. -/
theorem C1_finite_run_not_finished_after_N_events :
    (runEvents demoCfg (ADC_StartSampling demoCfg (idleState 1) 1 10 FALSE)
        [0x12345678]).AR_bufferIndex = 1 ∧
    (runEvents demoCfg (ADC_StartSampling demoCfg (idleState 1) 1 10 FALSE)
        [0x12345678]).AR_finishedFlag = FALSE ∧
    (runEvents demoCfg (ADC_StartSampling demoCfg (idleState 1) 1 10 FALSE)
        [0x12345678]).PCG_CTLD0 ≠ 0 ∧
    finishedCount (runEvents demoCfg (ADC_StartSampling demoCfg (idleState 1) 1 10 FALSE)
        [0x12345678]).calls = 0 ∧
    (runEvents demoCfg (ADC_StartSampling demoCfg (idleState 1) 1 10 FALSE)
        [0x12345678, 0x9abcdef0]).AR_finishedFlag = TRUE ∧
    (runEvents demoCfg (ADC_StartSampling demoCfg (idleState 1) 1 10 FALSE)
        [0x12345678, 0x9abcdef0]).PCG_CTLD0 = 0 ∧
    (runEvents demoCfg (ADC_StartSampling demoCfg (idleState 1) 1 10 FALSE)
        [0x12345678, 0x9abcdef0]).AR_bufferIndex = 1 := by
  refine ⟨?_, ?_, ?_, ?_, ?_, ?_, ?_⟩ <;> decide

/-- C2 (counterexample): a continuous run started with a total of zero samples
does terminate on sample count: the very first sample-done event finds the
index equal to the total, enters `ADC_FinishedAR`, sets the finished flag and
clears the clock-generator control register. -/
theorem C2_continuous_zero_total_terminates :
    finishedCount (runEvents demoCfg (ADC_StartSampling demoCfg (idleState 1) 0 10 TRUE)
        [0x12345678]).calls = 1 ∧
    (ADC_StartSampling demoCfg (idleState 1) 0 10 TRUE).AR_finishedFlag = FALSE ∧
    (runEvents demoCfg (ADC_StartSampling demoCfg (idleState 1) 0 10 TRUE)
        [0x12345678]).AR_finishedFlag = TRUE ∧
    (runEvents demoCfg (ADC_StartSampling demoCfg (idleState 1) 0 10 TRUE)
        [0x12345678]).PCG_CTLD0 = 0 := by
  refine ⟨?_, ?_, ?_, ?_⟩ <;> decide

/-- C2 (amended): a continuous run started with a total of at least one sample
never terminates on sample count. Whatever the prior state, the period and the
received words, after any number of sample-done events `ADC_FinishedAR` and
`ADC_StopSampling` have not been entered, the finished flag still has the value
it had before the run, and the clock-generator control register still holds the
nonzero value programmed by `ADC_init`. -/
theorem C2_continuous_run_never_terminates (cfg : Config) (s : State)
    (N period : Nat) (ws : List Nat) (hN : N ≠ 0) :
    finishedCount (runEvents cfg (ADC_StartSampling cfg s N period TRUE) ws).calls
      = finishedCount s.calls ∧
    stopCount (runEvents cfg (ADC_StartSampling cfg s N period TRUE) ws).calls
      = stopCount s.calls ∧
    (runEvents cfg (ADC_StartSampling cfg s N period TRUE) ws).AR_finishedFlag
      = s.AR_finishedFlag ∧
    (runEvents cfg (ADC_StartSampling cfg s N period TRUE) ws).PCG_CTLD0
      = 250 ||| cfg.ENFSD ||| cfg.ENCLKD ∧
    (runEvents cfg (ADC_StartSampling cfg s N period TRUE) ws).PCG_CTLD0 ≠ 0 := by
  have hc : (ADC_StartSampling cfg s N period TRUE).AR_continuousSampling ≠ FALSE := by
    rw [start_continuous]; decide
  have hne : (ADC_StartSampling cfg s N period TRUE).AR_bufferIndex
      ≠ (ADC_StartSampling cfg s N period TRUE).AR_totalSamples := by
    rw [start_index, start_total]; exact fun h => hN h.symm
  obtain ⟨_, h2, h3, h4⟩ := runEvents_continuous cfg _ ws hc hne
  rw [start_flag] at h2
  rw [start_pcg] at h3
  rw [start_calls, start_mode, start_index] at h4
  refine ⟨?_, ?_, h2, h3, ?_⟩
  · rw [h4, finishedCount_append]
    by_cases hm : s.OpMode = cfg.MODE_IF <;> simp [hm, finishedCount, List.count_replicate]
  · rw [h4, stopCount_append]
    by_cases hm : s.OpMode = cfg.MODE_IF <;> simp [hm, stopCount, List.count_replicate]
  · rw [h3]; exact pcg_running_ne_zero cfg

/-- C2 (witness): a continuous run of total three, after five events. -/
theorem C2_continuous_run_never_terminates_witness :
    (3 : Nat) ≠ 0 ∧
    (runEvents demoCfg (ADC_StartSampling demoCfg (idleState 1) 3 10 TRUE)
        [1, 2, 3, 4, 5]).AR_finishedFlag = (idleState 1).AR_finishedFlag :=
  ⟨by decide,
   (C2_continuous_run_never_terminates demoCfg (idleState 1) 3 10 [1, 2, 3, 4, 5]
      (by decide)).2.2.1⟩

/-- C3: in a finite run the index never exceeds the total. The bound holds
right after `ADC_StartSampling(N, period, FALSE)`, is preserved by every
sample-done event and by `ADC_FinishedAR`, and therefore holds after any
sequence of received words. -/
theorem C3_finite_run_index_le_total (cfg : Config) (s : State)
    (N period : Nat) (ws : List Nat) :
    (ADC_StartSampling cfg s N period FALSE).AR_bufferIndex
      ≤ (ADC_StartSampling cfg s N period FALSE).AR_totalSamples ∧
    (∀ (t : State) (w : Nat), t.AR_continuousSampling = FALSE →
      t.AR_bufferIndex ≤ t.AR_totalSamples →
      (IRQ_ADC_SampleDone cfg t w).AR_bufferIndex
        ≤ (IRQ_ADC_SampleDone cfg t w).AR_totalSamples) ∧
    (∀ t : State, t.AR_bufferIndex ≤ t.AR_totalSamples →
      (ADC_FinishedAR t).AR_bufferIndex ≤ (ADC_FinishedAR t).AR_totalSamples) ∧
    (runEvents cfg (ADC_StartSampling cfg s N period FALSE) ws).AR_continuousSampling = FALSE ∧
    (runEvents cfg (ADC_StartSampling cfg s N period FALSE) ws).AR_bufferIndex
      ≤ (runEvents cfg (ADC_StartSampling cfg s N period FALSE) ws).AR_totalSamples := by
  have h0 : (ADC_StartSampling cfg s N period FALSE).AR_bufferIndex
      ≤ (ADC_StartSampling cfg s N period FALSE).AR_totalSamples := by
    rw [start_index]; exact Nat.zero_le _
  refine ⟨h0, ?_, ?_, ?_, ?_⟩
  · intro t w _ h
    exact sampleDone_le cfg t w h
  · intro t h
    rw [finishedAR_eq]
    exact h
  · rw [(runEvents_static cfg _ ws).2.1, start_continuous]
  · exact runEvents_le cfg _ ws h0

/-- C3 (witness): a finite run of total three stays within its total over five
events, and one event from an in-range finite state stays in range. -/
theorem C3_finite_run_index_le_total_witness :
    (runEvents demoCfg (ADC_StartSampling demoCfg (idleState 1) 3 10 FALSE)
        [1, 2, 3, 4, 5]).AR_bufferIndex
      ≤ (runEvents demoCfg (ADC_StartSampling demoCfg (idleState 1) 3 10 FALSE)
        [1, 2, 3, 4, 5]).AR_totalSamples ∧
    (IRQ_ADC_SampleDone demoCfg (idleState 1) 7).AR_bufferIndex
      ≤ (IRQ_ADC_SampleDone demoCfg (idleState 1) 7).AR_totalSamples :=
  ⟨(C3_finite_run_index_le_total demoCfg (idleState 1) 3 10 [1, 2, 3, 4, 5]).2.2.2.2,
   (C3_finite_run_index_le_total demoCfg (idleState 1) 3 10 [1, 2, 3, 4, 5]).2.1
      (idleState 1) 7 (by decide) (by decide)⟩

/-- C4 (counterexample): in a continuous run that is Running (index zero, total
five) a sample-done event does not advance the index: it is still zero. -/
theorem C4_continuous_event_does_not_advance :
    (ADC_StartSampling demoCfg (idleState 1) 5 10 TRUE).AR_bufferIndex
      ≠ (ADC_StartSampling demoCfg (idleState 1) 5 10 TRUE).AR_totalSamples ∧
    (IRQ_ADC_SampleDone demoCfg (ADC_StartSampling demoCfg (idleState 1) 5 10 TRUE)
        0x12345678).AR_bufferIndex
      = (ADC_StartSampling demoCfg (idleState 1) 5 10 TRUE).AR_bufferIndex ∧
    (IRQ_ADC_SampleDone demoCfg (ADC_StartSampling demoCfg (idleState 1) 5 10 TRUE)
        0x12345678).AR_bufferIndex
      ≠ (ADC_StartSampling demoCfg (idleState 1) 5 10 TRUE).AR_bufferIndex + 1 := by
  refine ⟨?_, ?_, ?_⟩ <;> decide

/-- C4 (amended): while a run is Running (index different from the total, and
below the top of the unsigned range) a sample-done event of a finite run
increases the index by exactly one, whereas in a continuous run it leaves the
index unchanged, so the next sample goes to the same slot. -/
theorem C4_running_event_index (cfg : Config) (s : State) (w : Nat)
    (hrun : s.AR_bufferIndex ≠ s.AR_totalSamples)
    (hrange : s.AR_bufferIndex + 1 < 2 ^ 32) :
    (s.AR_continuousSampling = FALSE →
      (IRQ_ADC_SampleDone cfg s w).AR_bufferIndex = s.AR_bufferIndex + 1) ∧
    (s.AR_continuousSampling ≠ FALSE →
      (IRQ_ADC_SampleDone cfg s w).AR_bufferIndex = s.AR_bufferIndex ∧
      (IRQ_ADC_SampleDone cfg s w).AR_bufferIndex % cfg.MAX_SAMPLES_BUFFER_SIZE
        = s.AR_bufferIndex % cfg.MAX_SAMPLES_BUFFER_SIZE) := by
  constructor
  · intro hc
    rw [sampleDone_index, if_neg hrun, if_pos hc]
    exact Nat.mod_eq_of_lt hrange
  · intro hc
    have h : (IRQ_ADC_SampleDone cfg s w).AR_bufferIndex = s.AR_bufferIndex := by
      rw [sampleDone_index, if_neg hrun, if_neg hc]
    exact ⟨h, by rw [h]⟩

/-- C4 (witness): the first event of a finite run of total five moves the index
from zero to one. -/
theorem C4_running_event_index_witness :
    (ADC_StartSampling demoCfg (idleState 1) 5 10 FALSE).AR_bufferIndex
      ≠ (ADC_StartSampling demoCfg (idleState 1) 5 10 FALSE).AR_totalSamples ∧
    (IRQ_ADC_SampleDone demoCfg (ADC_StartSampling demoCfg (idleState 1) 5 10 FALSE)
        0x12345678).AR_bufferIndex
      = (ADC_StartSampling demoCfg (idleState 1) 5 10 FALSE).AR_bufferIndex + 1 :=
  ⟨by decide,
   (C4_running_event_index demoCfg (ADC_StartSampling demoCfg (idleState 1) 5 10 FALSE)
      0x12345678 (by decide) (by decide)).1 (by decide)⟩

theorem sampleDone_chA_iq (cfg : Config) (s : State) (w : Nat) (hm : s.OpMode ≠ cfg.MODE_IF) :
    (IRQ_ADC_SampleDone cfg s w).AR_bufferChA =
      Function.update s.AR_bufferChA (s.AR_bufferIndex % cfg.MAX_SAMPLES_BUFFER_SIZE)
        (calibrate (highCode w) cfg.CAL_CHB_DECIMAL) := by
  have h := sampleDone_buffers cfg s w
  rw [if_neg hm] at h
  exact congrArg Prod.fst h

theorem sampleDone_chB_iq (cfg : Config) (s : State) (w : Nat) (hm : s.OpMode ≠ cfg.MODE_IF) :
    (IRQ_ADC_SampleDone cfg s w).AR_bufferChB =
      Function.update s.AR_bufferChB (s.AR_bufferIndex % cfg.MAX_SAMPLES_BUFFER_SIZE)
        (calibrate (lowCode w) cfg.CAL_CHA_DECIMAL) := by
  have h := sampleDone_buffers cfg s w
  rw [if_neg hm] at h
  exact congrArg Prod.snd h

theorem sampleDone_buffers_if (cfg : Config) (s : State) (w : Nat) (hm : s.OpMode = cfg.MODE_IF) :
    ((IRQ_ADC_SampleDone cfg s w).AR_bufferChA, (IRQ_ADC_SampleDone cfg s w).AR_bufferChB) =
      cfg.signal_QuadratureDemodulation_InternalLO_PtbyPt
        (Function.update s.AR_bufferChA (s.AR_bufferIndex % cfg.MAX_SAMPLES_BUFFER_SIZE)
          (calibrate (highCode w) cfg.CAL_CHB_DECIMAL))
        s.AR_bufferChB s.AR_bufferIndex := by
  have h := sampleDone_buffers cfg s w
  rw [if_pos hm] at h
  exact h

theorem highCode_eq (w : Nat) : highCode w = (w / 2 ^ 16) % 2 ^ 16 := by
  unfold highCode
  rw [Nat.shiftRight_eq_div_pow]
  exact Nat.and_pow_two_sub_one_eq_mod (w / 2 ^ 16) 16

theorem lowCode_eq (w : Nat) : lowCode w = w % 2 ^ 16 := by
  unfold lowCode
  exact Nat.and_pow_two_sub_one_eq_mod w 16

theorem calibrate_eq (c : Nat) (o : Int) :
    calibrate c o = ((c : ℚ) - (o : ℚ)) * (5 / 2) / 65536 := by
  unfold calibrate
  push_cast
  rfl

/-- C5: for every index value `i` and every received word, the handler stores
the channel A sample (and outside IF mode the channel B sample) in slot
`i mod MAX_SAMPLES_BUFFER_SIZE` and leaves every other slot as it was. In IF
mode the demodulation routine then receives channel A with exactly that one
slot rewritten and channel B untouched. In particular a sample at logical
index `MAX_SAMPLES_BUFFER_SIZE` lands in slot zero, the slot written at logical
index zero. -/
theorem C5_sample_written_at_index_mod_capacity (cfg : Config) (s : State) (w : Nat) :
    (s.OpMode ≠ cfg.MODE_IF →
      (IRQ_ADC_SampleDone cfg s w).AR_bufferChA (s.AR_bufferIndex % cfg.MAX_SAMPLES_BUFFER_SIZE)
        = calibrate (highCode w) cfg.CAL_CHB_DECIMAL ∧
      (IRQ_ADC_SampleDone cfg s w).AR_bufferChB (s.AR_bufferIndex % cfg.MAX_SAMPLES_BUFFER_SIZE)
        = calibrate (lowCode w) cfg.CAL_CHA_DECIMAL ∧
      ∀ j : Nat, j ≠ s.AR_bufferIndex % cfg.MAX_SAMPLES_BUFFER_SIZE →
        (IRQ_ADC_SampleDone cfg s w).AR_bufferChA j = s.AR_bufferChA j ∧
        (IRQ_ADC_SampleDone cfg s w).AR_bufferChB j = s.AR_bufferChB j) ∧
    (s.OpMode = cfg.MODE_IF →
      ∃ chA : Buffer,
        chA (s.AR_bufferIndex % cfg.MAX_SAMPLES_BUFFER_SIZE)
          = calibrate (highCode w) cfg.CAL_CHB_DECIMAL ∧
        (∀ j : Nat, j ≠ s.AR_bufferIndex % cfg.MAX_SAMPLES_BUFFER_SIZE →
          chA j = s.AR_bufferChA j) ∧
        ((IRQ_ADC_SampleDone cfg s w).AR_bufferChA, (IRQ_ADC_SampleDone cfg s w).AR_bufferChB)
          = cfg.signal_QuadratureDemodulation_InternalLO_PtbyPt chA s.AR_bufferChB
              s.AR_bufferIndex) ∧
    (s.OpMode ≠ cfg.MODE_IF →
      s.AR_bufferIndex = 0 ∨ s.AR_bufferIndex = cfg.MAX_SAMPLES_BUFFER_SIZE →
      (IRQ_ADC_SampleDone cfg s w).AR_bufferChA 0 = calibrate (highCode w) cfg.CAL_CHB_DECIMAL ∧
      (IRQ_ADC_SampleDone cfg s w).AR_bufferChB 0
        = calibrate (lowCode w) cfg.CAL_CHA_DECIMAL) := by
  refine ⟨?_, ?_, ?_⟩
  · intro hm
    rw [sampleDone_chA_iq cfg s w hm, sampleDone_chB_iq cfg s w hm]
    refine ⟨Function.update_same _ _ _, Function.update_same _ _ _, ?_⟩
    intro j hj
    exact ⟨Function.update_noteq hj _ _, Function.update_noteq hj _ _⟩
  · intro hm
    refine ⟨_, Function.update_same _ _ _, ?_, sampleDone_buffers_if cfg s w hm⟩
    intro j hj
    exact Function.update_noteq hj _ _
  · intro hm h0
    have hslot : s.AR_bufferIndex % cfg.MAX_SAMPLES_BUFFER_SIZE = 0 := by
      rcases h0 with h | h
      · rw [h]; exact Nat.zero_mod _
      · rw [h]; exact Nat.mod_self _
    rw [sampleDone_chA_iq cfg s w hm, sampleDone_chB_iq cfg s w hm, hslot]
    exact ⟨Function.update_same _ _ _, Function.update_same _ _ _⟩

/-- C5 (witness): in IQ mode with capacity four, an event at logical index four
overwrites slot zero of both buffers. -/
theorem C5_sample_written_at_index_mod_capacity_witness :
    wrapState.OpMode ≠ demoCfg.MODE_IF ∧
    wrapState.AR_bufferIndex = demoCfg.MAX_SAMPLES_BUFFER_SIZE ∧
    (IRQ_ADC_SampleDone demoCfg wrapState 0x12345678).AR_bufferChA 0
      = calibrate (highCode 0x12345678) demoCfg.CAL_CHB_DECIMAL ∧
    (IRQ_ADC_SampleDone demoCfg wrapState 0x12345678).AR_bufferChB 0
      = calibrate (lowCode 0x12345678) demoCfg.CAL_CHA_DECIMAL :=
  ⟨by decide, rfl,
   (C5_sample_written_at_index_mod_capacity demoCfg wrapState 0x12345678).2.2
     (by decide) (Or.inr rfl)⟩

/-- C6 (counterexample): with calibration offsets 100 for channel A and 200 for
channel B and the all-zero word (both codes zero) in IQ mode, the value stored
in the channel A buffer is not `(0 - 100) * 2.5 / 65536`, and the value stored
in the channel B buffer is not `(0 - 200) * 2.5 / 65536`: each buffer is
calibrated with the other channel's constant. -/
theorem C6_channel_offsets_are_crossed :
    highCode 0 = 0 ∧ lowCode 0 = 0 ∧
    (IRQ_ADC_SampleDone demoCfg (idleState 1) 0).AR_bufferChA 0
      ≠ ((0 : ℚ) - (demoCfg.CAL_CHA_DECIMAL : ℚ)) * (5 / 2) / 65536 ∧
    (IRQ_ADC_SampleDone demoCfg (idleState 1) 0).AR_bufferChB 0
      ≠ ((0 : ℚ) - (demoCfg.CAL_CHB_DECIMAL : ℚ)) * (5 / 2) / 65536 := by
  have hm : (idleState 1).OpMode ≠ demoCfg.MODE_IF := by decide
  have h0 : (idleState 1).AR_bufferIndex % demoCfg.MAX_SAMPLES_BUFFER_SIZE = 0 := by decide
  have hh : highCode 0 = 0 := by decide
  have hl : lowCode 0 = 0 := by decide
  refine ⟨hh, hl, ?_, ?_⟩
  · rw [sampleDone_chA_iq demoCfg _ 0 hm, h0, Function.update_same, calibrate_eq, hh]
    simp only [demoCfg]
    norm_num
  · rw [sampleDone_chB_iq demoCfg _ 0 hm, h0, Function.update_same, calibrate_eq, hl]
    simp only [demoCfg]
    norm_num

/-- C6 (amended): the handler splits the received word into the two unsigned
16-bit codes `hi` (bits 31..16) and `lo` (bits 15..0). It stores in the channel
A buffer exactly `(hi - CAL_CHB_DECIMAL) * 2.5 / 65536` and, outside IF mode, in
the channel B buffer exactly `(lo - CAL_CHA_DECIMAL) * 2.5 / 65536`, over exact
rationals with the difference taken as a signed integer. In IF mode the channel
A value is what the demodulation routine receives and channel B is not stored
from the word. -/
theorem C6_calibrated_values_stored (cfg : Config) (s : State) (w : Nat) :
    highCode w = (w / 2 ^ 16) % 2 ^ 16 ∧
    lowCode w = w % 2 ^ 16 ∧
    highCode w < 65536 ∧ lowCode w < 65536 ∧
    (s.OpMode ≠ cfg.MODE_IF →
      (IRQ_ADC_SampleDone cfg s w).AR_bufferChA (s.AR_bufferIndex % cfg.MAX_SAMPLES_BUFFER_SIZE)
        = ((((highCode w : Int) - cfg.CAL_CHB_DECIMAL : Int) : ℚ)) * (5 / 2) / 65536 ∧
      (IRQ_ADC_SampleDone cfg s w).AR_bufferChB (s.AR_bufferIndex % cfg.MAX_SAMPLES_BUFFER_SIZE)
        = ((((lowCode w : Int) - cfg.CAL_CHA_DECIMAL : Int) : ℚ)) * (5 / 2) / 65536) ∧
    (s.OpMode = cfg.MODE_IF →
      ((IRQ_ADC_SampleDone cfg s w).AR_bufferChA, (IRQ_ADC_SampleDone cfg s w).AR_bufferChB)
        = cfg.signal_QuadratureDemodulation_InternalLO_PtbyPt
            (Function.update s.AR_bufferChA (s.AR_bufferIndex % cfg.MAX_SAMPLES_BUFFER_SIZE)
              (((((highCode w : Int) - cfg.CAL_CHB_DECIMAL : Int) : ℚ)) * (5 / 2) / 65536))
            s.AR_bufferChB s.AR_bufferIndex) := by
  refine ⟨highCode_eq w, lowCode_eq w, ?_, ?_, ?_, ?_⟩
  · rw [highCode_eq]; exact Nat.mod_lt _ (by norm_num)
  · rw [lowCode_eq]; exact Nat.mod_lt _ (by norm_num)
  · intro hm
    rw [sampleDone_chA_iq cfg s w hm, sampleDone_chB_iq cfg s w hm]
    exact ⟨Function.update_same _ _ _, Function.update_same _ _ _⟩
  · intro hm
    exact sampleDone_buffers_if cfg s w hm

/-- C6 (witness): the word `0x12345678` in IQ mode at index zero. -/
theorem C6_calibrated_values_stored_witness :
    (IRQ_ADC_SampleDone demoCfg (idleState 1) 0x12345678).AR_bufferChA
        ((idleState 1).AR_bufferIndex % demoCfg.MAX_SAMPLES_BUFFER_SIZE)
      = ((((highCode 0x12345678 : Int) - demoCfg.CAL_CHB_DECIMAL : Int) : ℚ)) * (5 / 2) / 65536 :=
  ((C6_calibrated_values_stored demoCfg (idleState 1) 0x12345678).2.2.2.2.1 (by decide)).1

/-- C7: in IF mode the handler stores only the channel A sample, hands the two
buffers (channel B exactly as it found it) and the current index to the
demodulation routine, and calls that routine exactly once, so that channel B is
whatever the routine returns and is unchanged when the routine does not touch
it. Outside IF mode the handler stores both the channel A and the channel B
slot from the word and does not call the routine. -/
theorem C7_mode_selects_store_or_callback (cfg : Config) (s : State) (w : Nat) :
    (s.OpMode = cfg.MODE_IF →
      ((IRQ_ADC_SampleDone cfg s w).AR_bufferChA, (IRQ_ADC_SampleDone cfg s w).AR_bufferChB)
        = cfg.signal_QuadratureDemodulation_InternalLO_PtbyPt
            (Function.update s.AR_bufferChA (s.AR_bufferIndex % cfg.MAX_SAMPLES_BUFFER_SIZE)
              (calibrate (highCode w) cfg.CAL_CHB_DECIMAL))
            s.AR_bufferChB s.AR_bufferIndex ∧
      ((∀ (a b : Buffer) (i : Nat),
          (cfg.signal_QuadratureDemodulation_InternalLO_PtbyPt a b i).2 = b) →
        (IRQ_ADC_SampleDone cfg s w).AR_bufferChB = s.AR_bufferChB) ∧
      demodArgs (IRQ_ADC_SampleDone cfg s w).calls
        = demodArgs s.calls ++ [s.AR_bufferIndex]) ∧
    (s.OpMode ≠ cfg.MODE_IF →
      (IRQ_ADC_SampleDone cfg s w).AR_bufferChA
        = Function.update s.AR_bufferChA (s.AR_bufferIndex % cfg.MAX_SAMPLES_BUFFER_SIZE)
            (calibrate (highCode w) cfg.CAL_CHB_DECIMAL) ∧
      (IRQ_ADC_SampleDone cfg s w).AR_bufferChB
        = Function.update s.AR_bufferChB (s.AR_bufferIndex % cfg.MAX_SAMPLES_BUFFER_SIZE)
            (calibrate (lowCode w) cfg.CAL_CHA_DECIMAL) ∧
      demodArgs (IRQ_ADC_SampleDone cfg s w).calls = demodArgs s.calls) := by
  constructor
  · intro hm
    have hb := sampleDone_buffers_if cfg s w hm
    refine ⟨hb, ?_, ?_⟩
    · intro hpure
      have h2 := congrArg Prod.snd hb
      simp only at h2
      rw [h2]
      exact hpure _ _ _
    · rw [sampleDone_calls, if_pos hm]
      by_cases he : s.AR_bufferIndex = s.AR_totalSamples <;>
        simp [he, demodArgs_append, demodArgs]
  · intro hm
    refine ⟨sampleDone_chA_iq cfg s w hm, sampleDone_chB_iq cfg s w hm, ?_⟩
    rw [sampleDone_calls, if_neg hm]
    by_cases he : s.AR_bufferIndex = s.AR_totalSamples <;>
      simp [he, demodArgs_append, demodArgs]

/-- C7 (witness): an IF-mode event at index zero logs exactly one demodulation
call, with index zero; an IQ-mode event logs none. -/
theorem C7_mode_selects_store_or_callback_witness :
    demodArgs (IRQ_ADC_SampleDone demoCfg (idleState 0) 0x12345678).calls
      = demodArgs (idleState 0).calls ++ [(idleState 0).AR_bufferIndex] ∧
    demodArgs (IRQ_ADC_SampleDone demoCfg (idleState 1) 0x12345678).calls
      = demodArgs (idleState 1).calls :=
  ⟨((C7_mode_selects_store_or_callback demoCfg (idleState 0) 0x12345678).1 (by decide)).2.2,
   ((C7_mode_selects_store_or_callback demoCfg (idleState 1) 0x12345678).2 (by decide)).2.2⟩

/-- C8 (counterexample): in a continuous IF-mode run of total five, the first
two sample-done events both pass index zero to the demodulation routine, so the
sequence of index arguments is not increasing. -/
theorem C8_continuous_if_run_repeats_index :
    (idleState 0).OpMode = demoCfg.MODE_IF ∧
    demodArgs (runEvents demoCfg (ADC_StartSampling demoCfg (idleState 0) 5 10 TRUE)
        [0x12345678, 0x9abcdef0]).calls = [0, 0] ∧
    demodArgs (runEvents demoCfg (ADC_StartSampling demoCfg (idleState 0) 5 10 TRUE)
        [0x12345678, 0x9abcdef0]).calls ≠ [0, 1] := by
  refine ⟨?_, ?_, ?_⟩ <;> decide

/-- C8 (amended): in a finite IF-mode run, from `ADC_StartSampling` up to and
including the event that finishes the run (the first `N + 1` events), the
`k`-th event passes index `k - 1` to the demodulation routine, so the index
arguments are strictly increasing. In a continuous IF-mode run with a nonzero
total every event passes index zero. -/
theorem C8_if_run_demod_indices (cfg : Config) (s : State) (N period : Nat) (ws : List Nat)
    (hm : s.OpMode = cfg.MODE_IF) :
    (N < 2 ^ 32 → ws.length ≤ N + 1 →
      demodArgs (runEvents cfg (ADC_StartSampling cfg s N period FALSE) ws).calls
        = demodArgs s.calls ++ List.range ws.length ∧
      (List.range ws.length).Pairwise (fun a b => a < b)) ∧
    (N ≠ 0 →
      demodArgs (runEvents cfg (ADC_StartSampling cfg s N period TRUE) ws).calls
        = demodArgs s.calls ++ List.replicate ws.length 0) := by
  constructor
  · intro hN hlen
    refine ⟨?_, List.pairwise_lt_range _⟩
    have hc : (ADC_StartSampling cfg s N period FALSE).AR_continuousSampling = FALSE := rfl
    have hT : (ADC_StartSampling cfg s N period FALSE).AR_totalSamples < 2 ^ 32 := hN
    by_cases hle : ws.length ≤ N
    · obtain ⟨_, _, _, h4⟩ := runEvents_finite_prefix cfg _ ws hc hT
        (by rw [start_index, start_total]; omega)
      rw [h4, start_calls, start_mode, start_index, if_pos hm, demodArgs_append,
        demodArgs_map_demod, List.range_eq_range']
    · have hne : ws ≠ [] := by
        intro h
        rw [h] at hle
        exact hle (Nat.zero_le _)
      have hsplit : ws.dropLast ++ [ws.getLast hne] = ws := List.dropLast_append_getLast hne
      have hdl : ws.dropLast.length = N := by
        rw [List.length_dropLast]; omega
      obtain ⟨_, _, _, _, _, h6⟩ := runEvents_finite_finish cfg
        (ADC_StartSampling cfg s N period FALSE) ws.dropLast (ws.getLast hne) hc hT
        (by rw [start_index, start_total, hdl]; omega)
      rw [hsplit] at h6
      have hlen2 : ws.length = N + 1 := by omega
      rw [h6, start_calls, start_mode, start_index, if_pos hm, hdl, demodArgs_append,
        demodArgs_append, demodArgs_map_demod, hlen2, List.range_eq_range']
      simp [demodArgs]
  · intro hN
    have hc : (ADC_StartSampling cfg s N period TRUE).AR_continuousSampling ≠ FALSE := by
      rw [start_continuous]; decide
    have hne : (ADC_StartSampling cfg s N period TRUE).AR_bufferIndex
        ≠ (ADC_StartSampling cfg s N period TRUE).AR_totalSamples := by
      rw [start_index, start_total]; exact fun h => hN h.symm
    obtain ⟨_, _, _, h4⟩ := runEvents_continuous cfg _ ws hc hne
    rw [h4, start_calls, start_mode, start_index, if_pos hm, demodArgs_append]
    congr 1
    generalize ws.length = n
    induction n with
    | zero => rfl
    | succ n ih => simp [List.replicate_succ, demodArgs, ih]

/-- C8 (witness): a finite IF-mode run of total two passes the indices zero,
one and two over its three events. -/
theorem C8_if_run_demod_indices_witness :
    (idleState 0).OpMode = demoCfg.MODE_IF ∧ 2 < 2 ^ 32 ∧ [10, 20, 30].length ≤ 2 + 1 ∧
    demodArgs (runEvents demoCfg (ADC_StartSampling demoCfg (idleState 0) 2 10 FALSE)
        [10, 20, 30]).calls
      = demodArgs (idleState 0).calls ++ List.range [10, 20, 30].length :=
  ⟨by decide, by decide, by decide,
   ((C8_if_run_demod_indices demoCfg (idleState 0) 2 10 [10, 20, 30] (by decide)).1
      (by decide) (by decide)).1⟩

/-- C9: whenever the handler finds the index equal to the total, the resulting
state has the clock-generator control register at zero, the finished flag
`TRUE` and the buffer-full signal at one, whatever the continuous flag; and
`ADC_FinishedAR` never changes the index, the total or the continuous flag. -/
theorem C9_finishing_event (cfg : Config) (s : State) (w : Nat)
    (h : s.AR_bufferIndex = s.AR_totalSamples) :
    (IRQ_ADC_SampleDone cfg s w).PCG_CTLD0 = 0 ∧
    (IRQ_ADC_SampleDone cfg s w).AR_finishedFlag = TRUE ∧
    (IRQ_ADC_SampleDone cfg s w).adc_sample_buffer_full = 1 ∧
    (∀ t : State,
      (ADC_FinishedAR t).PCG_CTLD0 = 0 ∧
      (ADC_FinishedAR t).AR_finishedFlag = TRUE ∧
      (ADC_FinishedAR t).adc_sample_buffer_full = 1 ∧
      (ADC_FinishedAR t).AR_bufferIndex = t.AR_bufferIndex ∧
      (ADC_FinishedAR t).AR_totalSamples = t.AR_totalSamples ∧
      (ADC_FinishedAR t).AR_continuousSampling = t.AR_continuousSampling) := by
  refine ⟨?_, ?_, ?_, ?_⟩
  · rw [sampleDone_pcg, if_pos h]
  · rw [sampleDone_flag, if_pos h]
  · rw [sampleDone_full, if_pos h]
  · intro t
    rw [finishedAR_eq]
    exact ⟨rfl, rfl, rfl, rfl, rfl, rfl⟩

/-- C9 (witness): a continuous state whose index equals its total (both three)
is stopped and marked finished by the next event. -/
theorem C9_finishing_event_witness :
    atTotalState.AR_bufferIndex = atTotalState.AR_totalSamples ∧
    atTotalState.AR_continuousSampling = TRUE ∧
    (IRQ_ADC_SampleDone demoCfg atTotalState 7).AR_finishedFlag = TRUE :=
  ⟨rfl, rfl, (C9_finishing_event demoCfg atTotalState 7 rfl).2.1⟩

/-- C10 (counterexample): after a finished run (total one, two events) the
finished flag is `TRUE`, and a following `ADC_StartSampling` leaves it `TRUE`
rather than resetting it to `FALSE`. -/
theorem C10_start_keeps_finished_flag :
    (runEvents demoCfg (ADC_StartSampling demoCfg (idleState 1) 1 10 FALSE)
        [0x12345678, 0x9abcdef0]).AR_finishedFlag = TRUE ∧
    (ADC_StartSampling demoCfg
        (runEvents demoCfg (ADC_StartSampling demoCfg (idleState 1) 1 10 FALSE)
          [0x12345678, 0x9abcdef0]) 3 10 FALSE).AR_finishedFlag = TRUE ∧
    (ADC_StartSampling demoCfg
        (runEvents demoCfg (ADC_StartSampling demoCfg (idleState 1) 1 10 FALSE)
          [0x12345678, 0x9abcdef0]) 3 10 FALSE).AR_finishedFlag ≠ FALSE := by
  refine ⟨?_, ?_, ?_⟩ <;> decide

/-- C10 (amended): for every prior state and every `N`, period and continuous
flag `c`, after `ADC_StartSampling(N, period, c)` the index is zero, the total
is `N`, the continuous flag is `c` and the clock generator is programmed to
run; the finished flag is not written and keeps the value it had before. -/
theorem C10_start_reinitialises_run (cfg : Config) (s : State) (N period c : Nat) :
    (ADC_StartSampling cfg s N period c).AR_bufferIndex = 0 ∧
    (ADC_StartSampling cfg s N period c).AR_totalSamples = N ∧
    (ADC_StartSampling cfg s N period c).AR_continuousSampling = c ∧
    (ADC_StartSampling cfg s N period c).PCG_CTLD0 = 250 ||| cfg.ENFSD ||| cfg.ENCLKD ∧
    (ADC_StartSampling cfg s N period c).AR_finishedFlag = s.AR_finishedFlag :=
  ⟨rfl, rfl, rfl, rfl, rfl⟩

/-- C11 (evaluation at the failing input): the value `ADC_StartSampling` writes
to `PCG_CTLD0` does not depend on the requested period. Periods of 10 and 20
microseconds program the same word, and for any two periods the programmed
word is the constant `250 | ENFSD | ENCLKD`. -/
theorem C11_clock_divisor_ignores_period (cfg : Config) (s : State) (N c p q : Nat) :
    (ADC_StartSampling cfg s N 10 c).PCG_CTLD0 = (ADC_StartSampling cfg s N 20 c).PCG_CTLD0 ∧
    (ADC_StartSampling cfg s N p c).PCG_CTLD0 = (ADC_StartSampling cfg s N q c).PCG_CTLD0 ∧
    (ADC_StartSampling cfg s N p c).PCG_CTLD0 = 250 ||| cfg.ENFSD ||| cfg.ENCLKD ∧
    (ADC_init cfg s p).PCG_CTLD0 = (ADC_init cfg s q).PCG_CTLD0 :=
  ⟨rfl, rfl, rfl, rfl⟩

/-- Once the index equals the total, further events leave the index where it
is and the finished flag set. -/
theorem runEvents_at_total (cfg : Config) (s : State) (vs : List Nat)
    (he : s.AR_bufferIndex = s.AR_totalSamples) (hf : s.AR_finishedFlag = TRUE) :
    (runEvents cfg s vs).AR_bufferIndex = s.AR_bufferIndex ∧
    (runEvents cfg s vs).AR_finishedFlag = TRUE := by
  induction vs generalizing s with
  | nil => exact ⟨rfl, hf⟩
  | cons v vs ih =>
    have hidx : (IRQ_ADC_SampleDone cfg s v).AR_bufferIndex = s.AR_bufferIndex := by
      rw [sampleDone_index, if_pos he]
    have hrec := ih (IRQ_ADC_SampleDone cfg s v)
      (by rw [hidx, sampleDone_total]; exact he)
      (by rw [sampleDone_flag, if_pos he])
    rw [runEvents_cons]
    exact ⟨by rw [hrec.1, hidx], hrec.2⟩

/-- C19: in a finite run started with `ADC_StartSampling(N, period, FALSE)` the
handler stores before it tests and tests before it increments. During the
first `N` events `ADC_FinishedAR` is not entered and event number `k + 1` finds
the index at `k`, so it writes slot `k mod MAX_SAMPLES_BUFFER_SIZE`; event
`N + 1` writes slot `N mod MAX_SAMPLES_BUFFER_SIZE` (slot zero when `N` is the
capacity), enters `ADC_FinishedAR` for the first time and publishes `N` as the
number of samples to send; every later event rewrites that same slot and leaves
the index at `N` and the finished flag `TRUE`. -/
theorem C19_finite_run_finishes_on_event_after_total (cfg : Config) (s : State)
    (N period : Nat) (hN : N < 2 ^ 32) :
    (∀ ws : List Nat, ws.length ≤ N →
      finishedCount (runEvents cfg (ADC_StartSampling cfg s N period FALSE) ws).calls
        = finishedCount s.calls ∧
      (runEvents cfg (ADC_StartSampling cfg s N period FALSE) ws).AR_bufferIndex = ws.length ∧
      ∀ w : Nat, s.OpMode ≠ cfg.MODE_IF →
        (runEvents cfg (ADC_StartSampling cfg s N period FALSE) (ws ++ [w])).AR_bufferChA
            (ws.length % cfg.MAX_SAMPLES_BUFFER_SIZE)
          = calibrate (highCode w) cfg.CAL_CHB_DECIMAL) ∧
    (∀ (ws : List Nat) (w : Nat), ws.length = N →
      finishedCount (runEvents cfg (ADC_StartSampling cfg s N period FALSE) (ws ++ [w])).calls
        = finishedCount s.calls + 1 ∧
      (runEvents cfg (ADC_StartSampling cfg s N period FALSE)
        (ws ++ [w])).adc_number_of_samples_to_send = N ∧
      (runEvents cfg (ADC_StartSampling cfg s N period FALSE) (ws ++ [w])).AR_bufferIndex = N ∧
      (runEvents cfg (ADC_StartSampling cfg s N period FALSE) (ws ++ [w])).AR_finishedFlag
        = TRUE ∧
      (N = cfg.MAX_SAMPLES_BUFFER_SIZE → s.OpMode ≠ cfg.MODE_IF →
        (runEvents cfg (ADC_StartSampling cfg s N period FALSE) (ws ++ [w])).AR_bufferChA 0
          = calibrate (highCode w) cfg.CAL_CHB_DECIMAL)) ∧
    (∀ (ws : List Nat) (w : Nat) (vs : List Nat) (v : Nat), ws.length = N →
      (runEvents cfg (ADC_StartSampling cfg s N period FALSE)
        (ws ++ [w] ++ vs ++ [v])).AR_bufferIndex = N ∧
      (runEvents cfg (ADC_StartSampling cfg s N period FALSE)
        (ws ++ [w] ++ vs ++ [v])).AR_finishedFlag = TRUE ∧
      (s.OpMode ≠ cfg.MODE_IF →
        (runEvents cfg (ADC_StartSampling cfg s N period FALSE)
            (ws ++ [w] ++ vs ++ [v])).AR_bufferChA (N % cfg.MAX_SAMPLES_BUFFER_SIZE)
          = calibrate (highCode v) cfg.CAL_CHB_DECIMAL)) := by
  have hc : (ADC_StartSampling cfg s N period FALSE).AR_continuousSampling = FALSE := rfl
  have hT : (ADC_StartSampling cfg s N period FALSE).AR_totalSamples < 2 ^ 32 := hN
  -- the slot written by one more event, in IQ mode, from the index before it
  have hslot : ∀ (t : State) (w : Nat), t.OpMode ≠ cfg.MODE_IF →
      (IRQ_ADC_SampleDone cfg t w).AR_bufferChA (t.AR_bufferIndex % cfg.MAX_SAMPLES_BUFFER_SIZE)
        = calibrate (highCode w) cfg.CAL_CHB_DECIMAL := by
    intro t w hm
    rw [sampleDone_chA_iq cfg t w hm]
    exact Function.update_same _ _ _
  have hfin : ∀ (ws : List Nat) (w : Nat), ws.length = N →
      (runEvents cfg (ADC_StartSampling cfg s N period FALSE) (ws ++ [w])).AR_bufferIndex
        = (runEvents cfg (ADC_StartSampling cfg s N period FALSE) (ws ++ [w])).AR_totalSamples ∧
      (runEvents cfg (ADC_StartSampling cfg s N period FALSE) (ws ++ [w])).AR_bufferIndex = N ∧
      (runEvents cfg (ADC_StartSampling cfg s N period FALSE) (ws ++ [w])).AR_finishedFlag
        = TRUE := by
    intro ws w hlen
    obtain ⟨h1, h2, _, _, _, _⟩ := runEvents_finite_finish cfg _ ws w hc hT
      (by rw [start_index, start_total, hlen]; omega)
    rw [start_total] at h1
    refine ⟨?_, h1, h2⟩
    rw [h1, (runEvents_static cfg _ _).1, start_total]
  refine ⟨?_, ?_, ?_⟩
  · intro ws hlen
    obtain ⟨h1, _, _, h4⟩ := runEvents_finite_prefix cfg _ ws hc hT
      (by rw [start_index, start_total]; omega)
    rw [start_index, Nat.zero_add] at h1
    refine ⟨?_, h1, ?_⟩
    · rw [h4, start_calls, finishedCount_append]
      by_cases hm : (ADC_StartSampling cfg s N period FALSE).OpMode = cfg.MODE_IF
      · rw [if_pos hm, finishedCount_map_demod, Nat.add_zero]
      · rw [if_neg hm]; rfl
    · intro w hm
      rw [runEvents_append, runEvents_cons, runEvents_nil, ← h1]
      apply hslot
      rw [(runEvents_static cfg _ ws).2.2, start_mode]
      exact hm
  · intro ws w hlen
    obtain ⟨h1, h2, _, _, h5, h6⟩ := runEvents_finite_finish cfg _ ws w hc hT
      (by rw [start_index, start_total, hlen]; omega)
    rw [start_total] at h1 h5
    refine ⟨?_, h5, h1, h2, ?_⟩
    · rw [h6, start_calls, finishedCount_append, finishedCount_append]
      by_cases hm : (ADC_StartSampling cfg s N period FALSE).OpMode = cfg.MODE_IF
      · rw [if_pos hm, finishedCount_map_demod]; rfl
      · rw [if_neg hm]; rfl
    · intro hcap hm
      obtain ⟨g1, _, _, _⟩ := runEvents_finite_prefix cfg _ ws hc hT
        (by rw [start_index, start_total]; omega)
      rw [start_index, Nat.zero_add] at g1
      have h0 : (runEvents cfg (ADC_StartSampling cfg s N period FALSE) ws).AR_bufferIndex
          % cfg.MAX_SAMPLES_BUFFER_SIZE = 0 := by
        rw [g1, hlen, hcap]; exact Nat.mod_self _
      rw [runEvents_append, runEvents_cons, runEvents_nil, ← h0]
      apply hslot
      rw [(runEvents_static cfg _ ws).2.2, start_mode]
      exact hm
  · intro ws w vs v hlen
    obtain ⟨he, hi, hf⟩ := hfin ws w hlen
    obtain ⟨k1, k2⟩ := runEvents_at_total cfg _ vs he hf
    have he2 : (runEvents cfg (ADC_StartSampling cfg s N period FALSE)
          (ws ++ [w] ++ vs)).AR_bufferIndex
        = (runEvents cfg (ADC_StartSampling cfg s N period FALSE)
          (ws ++ [w] ++ vs)).AR_totalSamples := by
      rw [runEvents_append, k1, he, (runEvents_static cfg _ vs).1]
    have hi2 : (runEvents cfg (ADC_StartSampling cfg s N period FALSE)
          (ws ++ [w] ++ vs)).AR_bufferIndex = N := by
      rw [runEvents_append, k1, hi]
    have hf2 : (runEvents cfg (ADC_StartSampling cfg s N period FALSE)
          (ws ++ [w] ++ vs)).AR_finishedFlag = TRUE := by
      rw [runEvents_append]; exact k2
    obtain ⟨m1, m2⟩ := runEvents_at_total cfg _ [v] he2 hf2
    refine ⟨?_, ?_, ?_⟩
    · rw [runEvents_append, m1, hi2]
    · rw [runEvents_append]; exact m2
    · intro hm
      have h := hslot (runEvents cfg (ADC_StartSampling cfg s N period FALSE) (ws ++ [w] ++ vs))
        v (by rw [(runEvents_static cfg _ _).2.2, start_mode]; exact hm)
      rw [hi2] at h
      rw [runEvents_append, runEvents_cons, runEvents_nil]
      exact h

/-- C19 (witness): with capacity four and a total of four, the fifth event
overwrites slot zero and is the one that publishes four samples to send. -/
theorem C19_finite_run_finishes_on_event_after_total_witness :
    (4 : Nat) < 2 ^ 32 ∧ [1, 2, 3, 4].length = 4 ∧
    (runEvents demoCfg (ADC_StartSampling demoCfg (idleState 1) 4 10 FALSE)
        ([1, 2, 3, 4] ++ [0x12345678])).adc_number_of_samples_to_send = 4 ∧
    (runEvents demoCfg (ADC_StartSampling demoCfg (idleState 1) 4 10 FALSE)
        ([1, 2, 3, 4] ++ [0x12345678])).AR_bufferChA 0
      = calibrate (highCode 0x12345678) demoCfg.CAL_CHB_DECIMAL :=
  ⟨by decide, rfl,
   ((C19_finite_run_finishes_on_event_after_total demoCfg (idleState 1) 4 10 (by decide)).2.1
      [1, 2, 3, 4] 0x12345678 rfl).2.1,
   ((C19_finite_run_finishes_on_event_after_total demoCfg (idleState 1) 4 10 (by decide)).2.1
      [1, 2, 3, 4] 0x12345678 rfl).2.2.2.2 rfl (by decide)⟩

/-! ## USB transport lemmas -/

theorem access_status (bus : Bus) (s : USBState) (d : Nat) :
    USB_access bus s USBPort.USB_STATUS USBDir.USB_READ d =
      (bus.statusAt s.statusReads s.dataReads s.dataWrites,
       { s with statusReads := s.statusReads + 1 }) := rfl

theorem access_read (bus : Bus) (s : USBState) (d : Nat) :
    USB_access bus s USBPort.USB_DATA_PIPE USBDir.USB_READ d =
      (bus.dataAt s.dataReads,
       { s with dataReads := s.dataReads + 1,
                log := s.log ++ [USBEvent.read (bus.dataAt s.dataReads)] }) := rfl

/-- The polling loop entered with a positive counter `n`: it makes between one
and `n` status reads and nothing else, and it succeeds exactly when one of the
next `n` status words has the bit set. -/
theorem pollLoop_spec (bus : Bus) (bit : Nat) (n : Nat) (s : USBState) (hn : 1 ≤ n) :
    (pollLoop bus bit n s).2.dataReads = s.dataReads ∧
    (pollLoop bus bit n s).2.dataWrites = s.dataWrites ∧
    (pollLoop bus bit n s).2.log = s.log ∧
    s.statusReads < (pollLoop bus bit n s).2.statusReads ∧
    (pollLoop bus bit n s).2.statusReads ≤ s.statusReads + n ∧
    ((pollLoop bus bit n s).1 = true ↔
      ∃ i, i < n ∧ bus.statusAt (s.statusReads + i) s.dataReads s.dataWrites &&& bit ≠ 0) ∧
    ((pollLoop bus bit n s).1 = false → (pollLoop bus bit n s).2.statusReads = s.statusReads + n) := by
  induction n generalizing s with
  | zero => omega
  | succ n ih =>
    by_cases hb : bus.statusAt s.statusReads s.dataReads s.dataWrites &&& bit ≠ 0
    · have hre : pollLoop bus bit (n + 1) s = (true, { s with statusReads := s.statusReads + 1 }) := by
        simp only [pollLoop, access_status, if_pos hb]
      rw [hre]
      refine ⟨rfl, rfl, rfl, Nat.lt_succ_self _, by simp, ?_, by simp⟩
      constructor
      · intro _
        exact ⟨0, Nat.succ_pos _, hb⟩
      · intro _
        rfl
    · by_cases h0 : n = 0
      · have hre : pollLoop bus bit (n + 1) s
            = (false, { s with statusReads := s.statusReads + 1 }) := by
          simp only [pollLoop, access_status, if_neg hb, if_pos h0]
        rw [hre]
        refine ⟨rfl, rfl, rfl, Nat.lt_succ_self _, by simp, ?_, by simp [h0]⟩
        constructor
        · intro h
          exact absurd h (by simp)
        · rintro ⟨i, hi, hset⟩
          have : i = 0 := by omega
          subst this
          exact absurd hset hb
      · have hre : pollLoop bus bit (n + 1) s
            = pollLoop bus bit n { s with statusReads := s.statusReads + 1 } := by
          simp only [pollLoop, access_status, if_neg hb, if_neg h0]
        rw [hre]
        obtain ⟨h1, h2, h3, h4, h5, h6, h7⟩ :=
          ih { s with statusReads := s.statusReads + 1 } (by omega)
        simp only at h1 h2 h3 h4 h5 h6 h7
        refine ⟨h1, h2, h3, by omega, by omega, ?_, ?_⟩
        · rw [h6]
          constructor
          · rintro ⟨i, hi, hset⟩
            exact ⟨i + 1, by omega, by rw [← Nat.add_assoc, Nat.add_right_comm]; exact hset⟩
          · rintro ⟨i, hi, hset⟩
            cases i with
            | zero => exact absurd hset hb
            | succ j =>
              exact ⟨j, by omega, by
                rw [← Nat.add_assoc, Nat.add_right_comm] at hset; exact hset⟩
        · intro hf
          rw [h7 hf]
          omega

theorem pollCount_pos (timeout : Nat) : 1 ≤ pollCount timeout := by
  unfold pollCount
  split_ifs with h
  · exact Nat.one_le_two_pow
  · omega

theorem pollCount_of_pos (timeout : Nat) (h : 1 ≤ timeout) : pollCount timeout = timeout := by
  unfold pollCount
  rw [if_neg (by omega)]

/-- A data-available poll transfers nothing: it only logs its own outcome. -/
theorem pollData_frame (cfg : USBConfig) (bus : Bus) (s : USBState) :
    (USB_pollDataAvailable cfg bus s).2.dataReads = s.dataReads ∧
    (USB_pollDataAvailable cfg bus s).2.dataWrites = s.dataWrites ∧
    (USB_pollDataAvailable cfg bus s).2.log
      = s.log ++ [USBEvent.pollData (USB_pollDataAvailable cfg bus s).1] := by
  obtain ⟨h1, h2, h3, _⟩ := pollLoop_spec bus cfg.USB_DATA_AVAILABLE
    (pollCount cfg.USB_READ_TIMEOUT) s (pollCount_pos _)
  refine ⟨h1, h2, ?_⟩
  show (pollLoop bus cfg.USB_DATA_AVAILABLE (pollCount cfg.USB_READ_TIMEOUT) s).2.log ++ _ = _
  rw [h3]
  rfl

/-- A space-available poll transfers nothing: it only logs its own outcome. -/
theorem pollSpace_frame (cfg : USBConfig) (bus : Bus) (s : USBState) :
    (USB_pollSpaceAvailable cfg bus s).2.dataReads = s.dataReads ∧
    (USB_pollSpaceAvailable cfg bus s).2.dataWrites = s.dataWrites ∧
    (USB_pollSpaceAvailable cfg bus s).2.log
      = s.log ++ [USBEvent.pollSpace (USB_pollSpaceAvailable cfg bus s).1] := by
  obtain ⟨h1, h2, h3, _⟩ := pollLoop_spec bus cfg.USB_SPACE_AVAILABLE
    (pollCount cfg.USB_READ_TIMEOUT) s (pollCount_pos _)
  refine ⟨h1, h2, ?_⟩
  show (pollLoop bus cfg.USB_SPACE_AVAILABLE (pollCount cfg.USB_READ_TIMEOUT) s).2.log ++ _ = _
  rw [h3]
  rfl

/-- C12: with `USB_READ_TIMEOUT >= 1`, for every bus behaviour (every sequence
of status words) `USB_pollDataAvailable` and `USB_pollSpaceAvailable` return
after at least one and at most `USB_READ_TIMEOUT` status reads; each returns
`TRUE` exactly when one of the next `USB_READ_TIMEOUT` status words has its
ready bit set, and `FALSE` (after exactly `USB_READ_TIMEOUT` reads) otherwise;
neither reads nor writes the data pipe. -/
theorem C12_polls_return_within_timeout (cfg : USBConfig) (bus : Bus) (s : USBState)
    (hT : 1 ≤ cfg.USB_READ_TIMEOUT) :
    (s.statusReads < (USB_pollDataAvailable cfg bus s).2.statusReads ∧
     (USB_pollDataAvailable cfg bus s).2.statusReads ≤ s.statusReads + cfg.USB_READ_TIMEOUT ∧
     ((USB_pollDataAvailable cfg bus s).1 = true ↔
        ∃ i, i < cfg.USB_READ_TIMEOUT ∧
          bus.statusAt (s.statusReads + i) s.dataReads s.dataWrites
            &&& cfg.USB_DATA_AVAILABLE ≠ 0) ∧
     ((USB_pollDataAvailable cfg bus s).1 = false →
        (USB_pollDataAvailable cfg bus s).2.statusReads
          = s.statusReads + cfg.USB_READ_TIMEOUT) ∧
     (USB_pollDataAvailable cfg bus s).2.dataReads = s.dataReads ∧
     (USB_pollDataAvailable cfg bus s).2.dataWrites = s.dataWrites ∧
     (USB_pollDataAvailable cfg bus s).2.log
       = s.log ++ [USBEvent.pollData (USB_pollDataAvailable cfg bus s).1]) ∧
    (s.statusReads < (USB_pollSpaceAvailable cfg bus s).2.statusReads ∧
     (USB_pollSpaceAvailable cfg bus s).2.statusReads ≤ s.statusReads + cfg.USB_READ_TIMEOUT ∧
     ((USB_pollSpaceAvailable cfg bus s).1 = true ↔
        ∃ i, i < cfg.USB_READ_TIMEOUT ∧
          bus.statusAt (s.statusReads + i) s.dataReads s.dataWrites
            &&& cfg.USB_SPACE_AVAILABLE ≠ 0) ∧
     ((USB_pollSpaceAvailable cfg bus s).1 = false →
        (USB_pollSpaceAvailable cfg bus s).2.statusReads
          = s.statusReads + cfg.USB_READ_TIMEOUT) ∧
     (USB_pollSpaceAvailable cfg bus s).2.dataReads = s.dataReads ∧
     (USB_pollSpaceAvailable cfg bus s).2.dataWrites = s.dataWrites ∧
     (USB_pollSpaceAvailable cfg bus s).2.log
       = s.log ++ [USBEvent.pollSpace (USB_pollSpaceAvailable cfg bus s).1]) := by
  have hd := pollLoop_spec bus cfg.USB_DATA_AVAILABLE (pollCount cfg.USB_READ_TIMEOUT) s
    (pollCount_pos _)
  have hs := pollLoop_spec bus cfg.USB_SPACE_AVAILABLE (pollCount cfg.USB_READ_TIMEOUT) s
    (pollCount_pos _)
  rw [pollCount_of_pos _ hT] at hd hs
  obtain ⟨_, _, _, d4, d5, d6, d7⟩ := hd
  obtain ⟨_, _, _, s4, s5, s6, s7⟩ := hs
  obtain ⟨fd1, fd2, fd3⟩ := pollData_frame cfg bus s
  obtain ⟨fs1, fs2, fs3⟩ := pollSpace_frame cfg bus s
  refine ⟨⟨?_, ?_, ?_, ?_, fd1, fd2, fd3⟩, ⟨?_, ?_, ?_, ?_, fs1, fs2, fs3⟩⟩
  · simpa [USB_pollDataAvailable, pollCount_of_pos _ hT] using d4
  · simpa [USB_pollDataAvailable, pollCount_of_pos _ hT] using d5
  · simpa [USB_pollDataAvailable, pollCount_of_pos _ hT] using d6
  · simpa [USB_pollDataAvailable, pollCount_of_pos _ hT] using d7
  · simpa [USB_pollSpaceAvailable, pollCount_of_pos _ hT] using s4
  · simpa [USB_pollSpaceAvailable, pollCount_of_pos _ hT] using s5
  · simpa [USB_pollSpaceAvailable, pollCount_of_pos _ hT] using s6
  · simpa [USB_pollSpaceAvailable, pollCount_of_pos _ hT] using s7

/-- C12 (witness): with a timeout of three, a poll on a bridge that never shows
data returns `FALSE` after exactly three status reads. -/
theorem C12_polls_return_within_timeout_witness :
    1 ≤ demoUSB.USB_READ_TIMEOUT ∧
    (USB_pollDataAvailable demoUSB silentBus usbIdle).1 = false ∧
    (USB_pollDataAvailable demoUSB silentBus usbIdle).2.statusReads
      = usbIdle.statusReads + demoUSB.USB_READ_TIMEOUT :=
  ⟨by decide, by decide,
   (C12_polls_return_within_timeout demoUSB silentBus usbIdle (by decide)).1.2.2.2.1
     (by decide)⟩

/-- Whenever `USB_purge` returns, it returns `TRUE`. -/
theorem purge_result (cfg : USBConfig) (bus : Bus) (fuel : Nat) (s : USBState)
    (r : Int × USBState) (h : USB_purge cfg bus fuel s = some r) : r.1 = (TRUE : Int) := by
  induction fuel generalizing s with
  | zero => simp [USB_purge] at h
  | succ fuel ih =>
    rw [USB_purge] at h
    by_cases hp : (USB_pollDataAvailable cfg bus s).1 = true
    · simp only [hp, if_true] at h
      exact ih _ h
    · simp only [hp] at h
      simp only [Bool.false_eq_true, if_false, Option.some.injEq] at h
      rw [← h]

/-- C13 (evaluation at the failing input): on a bridge that never shows data
available the first poll of `USB_purge` times out, and `USB_purge` returns
`TRUE`, not `USB_ERROR_FLAG`. No execution returns anything but `TRUE`. -/
theorem C13_purge_returns_true_on_timeout :
    (USB_pollDataAvailable demoUSB silentBus usbIdle).1 = false ∧
    (USB_purge demoUSB silentBus 1 usbIdle).map Prod.fst = some (TRUE : Int) ∧
    (TRUE : Int) ≠ demoUSB.USB_ERROR_FLAG ∧
    (∀ (cfg : USBConfig) (bus : Bus) (fuel : Nat) (s : USBState) (r : Int × USBState),
      USB_purge cfg bus fuel s = some r → r.1 = (TRUE : Int)) := by
  refine ⟨by decide, by decide, by decide, ?_⟩
  intro cfg bus fuel s r h
  exact purge_result cfg bus fuel s r h

/-- On the finite-queue bus a poll succeeds exactly while bytes remain. -/
theorem fifo_poll (cfg : USBConfig) (queue : List Nat) (s : USBState)
    (hDA : cfg.USB_DATA_AVAILABLE ≠ 0) :
    (USB_pollDataAvailable cfg (fifoBus cfg queue) s).1 = decide (s.dataReads < queue.length) := by
  obtain ⟨_, _, _, _, _, h6, _⟩ := pollLoop_spec (fifoBus cfg queue) cfg.USB_DATA_AVAILABLE
    (pollCount cfg.USB_READ_TIMEOUT) s (pollCount_pos _)
  have hp : (USB_pollDataAvailable cfg (fifoBus cfg queue) s).1
      = (pollLoop (fifoBus cfg queue) cfg.USB_DATA_AVAILABLE
          (pollCount cfg.USB_READ_TIMEOUT) s).1 := rfl
  rw [hp]
  by_cases hlt : s.dataReads < queue.length
  · rw [decide_eq_true hlt, h6]
    refine ⟨0, pollCount_pos _, ?_⟩
    simp only [fifoBus, if_pos hlt, Nat.and_self]
    exact hDA
  · rw [decide_eq_false hlt]
    cases hres : (pollLoop (fifoBus cfg queue) cfg.USB_DATA_AVAILABLE
        (pollCount cfg.USB_READ_TIMEOUT) s).1 with
    | false => rfl
    | true =>
      obtain ⟨i, _, hset⟩ := h6.mp hres
      simp only [fifoBus, if_neg hlt, Nat.zero_and] at hset
      exact absurd rfl hset

/-- On the finite-queue bus `USB_purge` returns once the queue is drained,
having read exactly the queued bytes in order. -/
theorem purge_fifo (cfg : USBConfig) (queue : List Nat) (hDA : cfg.USB_DATA_AVAILABLE ≠ 0)
    (d : Nat) (s : USBState) (fuel : Nat)
    (hd : queue.length - s.dataReads = d) (hle : s.dataReads ≤ queue.length)
    (hfuel : d + 1 ≤ fuel) :
    ∃ s' : USBState,
      USB_purge cfg (fifoBus cfg queue) fuel s = some ((TRUE : Int), s') ∧
      s'.dataReads = queue.length ∧
      s'.dataWrites = s.dataWrites ∧
      s'.log = s.log ++ recvTrace (queue.drop s.dataReads) ++ [USBEvent.pollData false] := by
  induction d generalizing s fuel with
  | zero =>
    obtain ⟨f, rfl⟩ : ∃ f, fuel = f + 1 := ⟨fuel - 1, by omega⟩
    have hnlt : ¬ s.dataReads < queue.length := by omega
    have hp := fifo_poll cfg queue s hDA
    rw [decide_eq_false hnlt] at hp
    obtain ⟨f1, f2, f3⟩ := pollData_frame cfg (fifoBus cfg queue) s
    refine ⟨(USB_pollDataAvailable cfg (fifoBus cfg queue) s).2, ?_, ?_, f2, ?_⟩
    · rw [USB_purge]
      simp only [hp, Bool.false_eq_true, if_false]
    · rw [f1]; omega
    · rw [f3, hp, List.drop_of_length_le (by omega)]
      simp [recvTrace]
  | succ d ih =>
    obtain ⟨f, rfl⟩ : ∃ f, fuel = f + 1 := ⟨fuel - 1, by omega⟩
    have hlt : s.dataReads < queue.length := by omega
    have hp := fifo_poll cfg queue s hDA
    rw [decide_eq_true hlt] at hp
    obtain ⟨f1, f2, f3⟩ := pollData_frame cfg (fifoBus cfg queue) s
    have hrec := ih
      (USB_access (fifoBus cfg queue) (USB_pollDataAvailable cfg (fifoBus cfg queue) s).2
        USBPort.USB_DATA_PIPE USBDir.USB_READ 0).2 f
      (by rw [access_read]; simp only; rw [f1]; omega)
      (by rw [access_read]; simp only; rw [f1]; omega)
      (by omega)
    obtain ⟨s', g1, g2, g3, g4⟩ := hrec
    refine ⟨s', ?_, g2, ?_, ?_⟩
    · rw [USB_purge]
      simp only [hp, if_true]
      exact g1
    · rw [g3, access_read]; exact f2
    · rw [g4, access_read]
      simp only
      rw [f1, f3, hp, List.drop_eq_getElem_cons hlt]
      have hget : (fifoBus cfg queue).dataAt s.dataReads = queue[s.dataReads] := by
        simp [fifoBus, List.getD_eq_getElem?_getD, List.getElem?_eq_getElem hlt]
      rw [hget]
      simp [recvTrace]

/-- C14: with the input FIFO a finite queue without arrivals whose status shows
data available exactly while it is non-empty, `USB_purge` returns (given at
least one loop iteration per queued byte plus one) having read every queued
byte in order; the queue is empty afterwards and a following
`USB_pollDataAvailable` returns `FALSE`. -/
theorem C14_purge_drains_queue (cfg : USBConfig) (queue : List Nat) (fuel : Nat)
    (hDA : cfg.USB_DATA_AVAILABLE ≠ 0) (hfuel : queue.length + 1 ≤ fuel) :
    ∃ s' : USBState,
      USB_purge cfg (fifoBus cfg queue) fuel usbIdle = some ((TRUE : Int), s') ∧
      s'.dataReads = queue.length ∧
      fifoQueue queue s' = [] ∧
      s'.log = recvTrace queue ++ [USBEvent.pollData false] ∧
      (USB_pollDataAvailable cfg (fifoBus cfg queue) s').1 = false := by
  obtain ⟨s', h1, h2, _, h4⟩ := purge_fifo cfg queue hDA queue.length usbIdle fuel
    rfl (Nat.zero_le _) hfuel
  refine ⟨s', h1, h2, ?_, ?_, ?_⟩
  · unfold fifoQueue
    rw [h2]
    exact List.drop_length queue
  · rw [h4]
    simp [usbIdle]
  · rw [fifo_poll cfg queue s' hDA, h2]
    exact decide_eq_false (Nat.lt_irrefl _)

/-- C14 (witness): a queue of three bytes is drained by four loop iterations. -/
theorem C14_purge_drains_queue_witness :
    demoUSB.USB_DATA_AVAILABLE ≠ 0 ∧ [7, 8, 9].length + 1 ≤ 4 ∧
    ∃ s' : USBState,
      USB_purge demoUSB (fifoBus demoUSB [7, 8, 9]) 4 usbIdle = some ((TRUE : Int), s') ∧
      s'.dataReads = [7, 8, 9].length ∧
      fifoQueue [7, 8, 9] s' = [] ∧
      s'.log = recvTrace [7, 8, 9] ++ [USBEvent.pollData false] ∧
      (USB_pollDataAvailable demoUSB (fifoBus demoUSB [7, 8, 9]) s').1 = false :=
  ⟨by decide, by decide,
   C14_purge_drains_queue demoUSB [7, 8, 9] 4 (by decide) (by decide)⟩

theorem toSigned_of_lt (v : Nat) (h : v < 2 ^ 31) : toSigned (v : Int) = (v : Int) := by
  unfold toSigned
  omega

theorem toUnsigned_of_lt (v : Nat) (h : v < 2 ^ 32) : toUnsigned (v : Int) = v := by
  unfold toUnsigned
  have : ((v : Int) % 2 ^ 32) = (v : Int) := by omega
  rw [this]
  exact Int.toNat_ofNat v

/-- Two bytes combined as in `USB_readPacketSize` give the big-endian value. -/
theorem packetsize_bytes (b0 b1 : Nat) (h0 : b0 < 256) (h1 : b1 < 256) :
    toUnsigned (toSigned (b0 : Int) * 2 ^ 8) ||| toUnsigned (toSigned (b1 : Int))
      = b0 * 256 + b1 := by
  rw [toSigned_of_lt b0 (by omega), toSigned_of_lt b1 (by omega)]
  have e : ((b0 : Int) * 2 ^ 8) = ((b0 * 256 : Nat) : Int) := by push_cast; rfl
  rw [e, toUnsigned_of_lt _ (by omega), toUnsigned_of_lt _ (by omega)]
  have hb : b1 < 2 ^ 8 := by omega
  have := Nat.mul_add_lt_is_or hb b0
  rw [Nat.mul_comm] at this
  exact this.symm

/-- A data-available poll followed by a data-pipe read: the read delivers the
next word of the pipe and the log gains the poll outcome and the read. -/
theorem poll_then_read (cfg : USBConfig) (bus : Bus) (t : USBState) :
    (USB_access bus (USB_pollDataAvailable cfg bus t).2
      USBPort.USB_DATA_PIPE USBDir.USB_READ 0).1 = bus.dataAt t.dataReads ∧
    (USB_access bus (USB_pollDataAvailable cfg bus t).2
      USBPort.USB_DATA_PIPE USBDir.USB_READ 0).2.dataReads = t.dataReads + 1 ∧
    (USB_access bus (USB_pollDataAvailable cfg bus t).2
      USBPort.USB_DATA_PIPE USBDir.USB_READ 0).2.dataWrites = t.dataWrites ∧
    (USB_access bus (USB_pollDataAvailable cfg bus t).2
      USBPort.USB_DATA_PIPE USBDir.USB_READ 0).2.log
        = t.log ++ [USBEvent.pollData (USB_pollDataAvailable cfg bus t).1,
                    USBEvent.read (bus.dataAt t.dataReads)] := by
  obtain ⟨f1, f2, f3⟩ := pollData_frame cfg bus t
  rw [access_read]
  simp only
  rw [f1, f2, f3]
  exact ⟨rfl, rfl, rfl, by simp⟩

/-- C15: when both polls succeed and the data pipe delivers the bytes `b0` and
`b1` (any values in `0..255`, also those of `0x80` and above),
`USB_readPacketSize` reads exactly those two bytes and returns
`b0 * 256 + b1`. -/
theorem C15_packet_size_big_endian (cfg : USBConfig) (bus : Bus) (s : USBState) (b0 b1 : Nat)
    (hb0 : b0 < 256) (hb1 : b1 < 256)
    (hd0 : bus.dataAt s.dataReads = b0) (hd1 : bus.dataAt (s.dataReads + 1) = b1)
    (hp1 : (USB_pollDataAvailable cfg bus s).1 = true)
    (hp2 : (USB_pollDataAvailable cfg bus
      (USB_access bus (USB_pollDataAvailable cfg bus s).2
        USBPort.USB_DATA_PIPE USBDir.USB_READ 0).2).1 = true) :
    (USB_readPacketSize cfg bus s).1 = b0 * 256 + b1 ∧
    (USB_readPacketSize cfg bus s).2.dataReads = s.dataReads + 2 ∧
    (USB_readPacketSize cfg bus s).2.dataWrites = s.dataWrites ∧
    (USB_readPacketSize cfg bus s).2.log = s.log ++ recvTrace [b0, b1] := by
  obtain ⟨a1, a2, a3, a4⟩ := poll_then_read cfg bus s
  obtain ⟨c1, c2, c3, c4⟩ := poll_then_read cfg bus
    (USB_access bus (USB_pollDataAvailable cfg bus s).2 USBPort.USB_DATA_PIPE USBDir.USB_READ 0).2
  rw [a2] at c1 c2 c4
  rw [a3] at c3
  rw [a4, hp1, hp2, hd0, hd1] at c4
  rw [hd0] at a1
  rw [hd1] at c1
  have hres : USB_readPacketSize cfg bus s =
      (toUnsigned (toSigned ((USB_access bus (USB_pollDataAvailable cfg bus s).2
            USBPort.USB_DATA_PIPE USBDir.USB_READ 0).1 : Int) * 2 ^ 8)
        ||| toUnsigned (toSigned ((USB_access bus (USB_pollDataAvailable cfg bus
            (USB_access bus (USB_pollDataAvailable cfg bus s).2
              USBPort.USB_DATA_PIPE USBDir.USB_READ 0).2).2
            USBPort.USB_DATA_PIPE USBDir.USB_READ 0).1 : Int)),
       (USB_access bus (USB_pollDataAvailable cfg bus
          (USB_access bus (USB_pollDataAvailable cfg bus s).2
            USBPort.USB_DATA_PIPE USBDir.USB_READ 0).2).2
          USBPort.USB_DATA_PIPE USBDir.USB_READ 0).2) := by
    simp only [USB_readPacketSize, hp1, hp2, Bool.true_eq_false, if_false]
  rw [hres]
  simp only
  rw [a1, c1]
  refine ⟨packetsize_bytes b0 b1 hb0 hb1, c2, c3, ?_⟩
  rw [c4]
  simp [recvTrace]

/-- C15 (witness): the bytes `0x00, 0x05` give a packet size of five. -/
theorem C15_packet_size_big_endian_witness :
    (USB_readPacketSize demoUSB (readyBus [0x00, 0x05]) usbIdle).1 = 0x00 * 256 + 0x05 ∧
    (USB_readPacketSize demoUSB (readyBus [0x00, 0x05]) usbIdle).2.dataReads
      = usbIdle.dataReads + 2 :=
  ⟨(C15_packet_size_big_endian demoUSB (readyBus [0x00, 0x05]) usbIdle 0x00 0x05
      (by decide) (by decide) (by decide) (by decide) (by decide) (by decide)).1,
   (C15_packet_size_big_endian demoUSB (readyBus [0x00, 0x05]) usbIdle 0x00 0x05
      (by decide) (by decide) (by decide) (by decide) (by decide) (by decide)).2.1⟩

theorem delivered_succ (bus : Bus) (r k : Nat) :
    delivered bus r (k + 1) = bus.dataAt r :: delivered bus (r + 1) k := by
  simp [delivered, List.range'_succ]

/-- When every status word shows data, a data-available poll succeeds. -/
theorem pollData_of_ready (cfg : USBConfig) (bus : Bus) (s : USBState)
    (hready : ∀ a b c, bus.statusAt a b c &&& cfg.USB_DATA_AVAILABLE ≠ 0) :
    (USB_pollDataAvailable cfg bus s).1 = true := by
  obtain ⟨_, _, _, _, _, h6, _⟩ := pollLoop_spec bus cfg.USB_DATA_AVAILABLE
    (pollCount cfg.USB_READ_TIMEOUT) s (pollCount_pos _)
  show (pollLoop bus cfg.USB_DATA_AVAILABLE (pollCount cfg.USB_READ_TIMEOUT) s).1 = true
  rw [h6]
  exact ⟨0, pollCount_pos _, hready _ _ _⟩

/-- On a bridge that always shows data no poll times out: all `n` polls succeed. -/
theorem payloadPolls_of_ready (cfg : USBConfig) (bus : Bus) (n : Nat) (s : USBState)
    (hready : ∀ a b c, bus.statusAt a b c &&& cfg.USB_DATA_AVAILABLE ≠ 0) :
    payloadPolls cfg bus n s = n := by
  induction n generalizing s with
  | zero => rfl
  | succ n ih =>
    rw [payloadPolls, if_pos (pollData_of_ready cfg bus s hready), ih]

/-- When the first poll times out, no poll succeeds before the first timeout. -/
theorem payloadPolls_of_timeout (cfg : USBConfig) (bus : Bus) (n : Nat) (s : USBState)
    (hp : (USB_pollDataAvailable cfg bus s).1 = false) :
    payloadPolls cfg bus n s = 0 := by
  cases n with
  | zero => rfl
  | succ n =>
    rw [payloadPolls, if_neg (by rw [hp]; exact Bool.false_ne_true)]

/-- The payload loop: with `k` the number of polls that succeed before the
first timeout, `k` words are read and stored from `index` on, the rest of the
buffer is untouched, and the result tells whether `k` reached the requested
count. -/
theorem readPayloadLoop_spec (cfg : USBConfig) (bus : Bus) (remaining index : Nat)
    (buf : Nat → Nat) (s : USBState) :
    payloadPolls cfg bus remaining s ≤ remaining ∧
    (readPayloadLoop cfg bus remaining index buf s).2.2.dataReads
      = s.dataReads + payloadPolls cfg bus remaining s ∧
    (readPayloadLoop cfg bus remaining index buf s).2.2.dataWrites = s.dataWrites ∧
    (readPayloadLoop cfg bus remaining index buf s).2.2.log
      = s.log ++ recvTrace (delivered bus s.dataReads (payloadPolls cfg bus remaining s))
          ++ (if payloadPolls cfg bus remaining s < remaining
                then [USBEvent.pollData false] else []) ∧
    (∀ m, m < payloadPolls cfg bus remaining s →
      (readPayloadLoop cfg bus remaining index buf s).2.1 (index + m)
        = toUnsigned (bus.dataAt (s.dataReads + m))) ∧
    (∀ j, j < index ∨ index + payloadPolls cfg bus remaining s ≤ j →
      (readPayloadLoop cfg bus remaining index buf s).2.1 j = buf j) ∧
    (readPayloadLoop cfg bus remaining index buf s).1
      = (if payloadPolls cfg bus remaining s = remaining
          then (TRUE : Int) else cfg.USB_ERROR_FLAG) := by
  induction remaining generalizing index buf s with
  | zero =>
    refine ⟨Nat.le_refl _, rfl, rfl, ?_, ?_, ?_, rfl⟩
    · simp [readPayloadLoop, payloadPolls, delivered, recvTrace]
    · intro m hm
      simp only [payloadPolls] at hm
      omega
    · intro j _; rfl
  | succ remaining ih =>
    obtain ⟨f1, f2, f3⟩ := pollData_frame cfg bus s
    by_cases hp : (USB_pollDataAvailable cfg bus s).1 = true
    · obtain ⟨a1, a2, a3, a4⟩ := poll_then_read cfg bus s
      have hre : readPayloadLoop cfg bus (remaining + 1) index buf s
          = readPayloadLoop cfg bus remaining (index + 1)
              (Function.update buf index (toUnsigned ((USB_access bus
                (USB_pollDataAvailable cfg bus s).2
                USBPort.USB_DATA_PIPE USBDir.USB_READ 0).1 : Int)))
              (USB_access bus (USB_pollDataAvailable cfg bus s).2
                USBPort.USB_DATA_PIPE USBDir.USB_READ 0).2 := by
        simp only [readPayloadLoop, hp, Bool.true_eq_false, if_false]
      have hkdef : payloadPolls cfg bus (remaining + 1) s
          = payloadPolls cfg bus remaining (USB_access bus (USB_pollDataAvailable cfg bus s).2
              USBPort.USB_DATA_PIPE USBDir.USB_READ 0).2 + 1 := by
        rw [payloadPolls, if_pos hp]
      obtain ⟨hk, h1, h2, h3, h4, h5, h6⟩ := ih (index + 1)
        (Function.update buf index (toUnsigned ((USB_access bus
          (USB_pollDataAvailable cfg bus s).2
          USBPort.USB_DATA_PIPE USBDir.USB_READ 0).1 : Int)))
        (USB_access bus (USB_pollDataAvailable cfg bus s).2
          USBPort.USB_DATA_PIPE USBDir.USB_READ 0).2
      rw [← hre] at h1 h2 h3 h4 h5 h6
      generalize payloadPolls cfg bus remaining (USB_access bus (USB_pollDataAvailable cfg bus s).2
        USBPort.USB_DATA_PIPE USBDir.USB_READ 0).2 = k at hkdef hk h1 h3 h4 h5 h6
      rw [a2] at h1 h3 h4
      rw [a3] at h2
      rw [a4, hp] at h3
      rw [a1] at h5
      rw [hkdef]
      refine ⟨by omega, by rw [h1]; omega, h2, ?_, ?_, ?_, ?_⟩
      · rw [h3, delivered_succ]
        by_cases hlt : k < remaining
        · simp [recvTrace, hlt]
        · simp [recvTrace, hlt]
      · intro m hm
        cases m with
        | zero =>
          show (readPayloadLoop cfg bus (remaining + 1) index buf s).2.1 index
            = toUnsigned ((bus.dataAt s.dataReads : Nat) : Int)
          rw [h5 index (Or.inl (Nat.lt_succ_self _)), Function.update_same]
        | succ m =>
          have := h4 m (by omega)
          rw [show index + 1 + m = index + (m + 1) by omega,
            show s.dataReads + 1 + m = s.dataReads + (m + 1) by omega] at this
          exact this
      · intro j hj
        rw [h5 j (by omega), Function.update_noteq (by omega)]
      · rw [h6]
        by_cases hkr : k = remaining
        · simp [hkr]
        · simp [hkr]
    · have hpf : (USB_pollDataAvailable cfg bus s).1 = false := by
        cases h : (USB_pollDataAvailable cfg bus s).1 with
        | false => rfl
        | true => exact absurd h hp
      have hre : readPayloadLoop cfg bus (remaining + 1) index buf s
          = (cfg.USB_ERROR_FLAG, buf, (USB_pollDataAvailable cfg bus s).2) := by
        simp only [readPayloadLoop, hpf, if_true]
      rw [hre, payloadPolls_of_timeout cfg bus (remaining + 1) s hpf]
      refine ⟨Nat.zero_le _, f1, f2, ?_, ?_, ?_, ?_⟩
      · simp only
        rw [f3, hpf]
        simp [delivered, recvTrace]
      · intro m hm; omega
      · intro j _; rfl
      · simp

theorem readyBus_bytes (bytes : List Nat) (h : ∀ b ∈ bytes, b < 256) (r : Nat) :
    (readyBus bytes).dataAt r < 256 := by
  simp only [readyBus, List.getD_eq_getElem?_getD]
  cases hr : bytes[r]? with
  | none => simp
  | some b =>
    simp only [Option.getD_some]
    exact h b (List.getElem?_mem hr)

/-- C16 (counterexample): the length `0xFFFFFFFF` (the value `USB_readPacketSize`
returns on a timeout) on a bridge that always has data, where a poll would
succeed and the first byte waiting is `1`. `payload_size` is the `int` value of
the length, which is negative, so the loop body never runs: no poll is made, no
byte is read, `buf[0]` is not set, and yet the result is `TRUE`. -/
theorem C16_read_payload_huge_length_reads_nothing :
    (USB_pollDataAvailable demoUSB (readyBus [1, 2, 3, 4, 5]) usbIdle).1 = true ∧
    (readyBus [1, 2, 3, 4, 5]).dataAt 0 = 1 ∧
    (USB_readPayload demoUSB (readyBus [1, 2, 3, 4, 5]) 0xFFFFFFFF (fun _ => 0) usbIdle).1
      = (TRUE : Int) ∧
    (USB_readPayload demoUSB (readyBus [1, 2, 3, 4, 5]) 0xFFFFFFFF
      (fun _ => 0) usbIdle).2.2.dataReads = 0 ∧
    (USB_readPayload demoUSB (readyBus [1, 2, 3, 4, 5]) 0xFFFFFFFF
      (fun _ => 0) usbIdle).2.2.log = [] ∧
    (USB_readPayload demoUSB (readyBus [1, 2, 3, 4, 5]) 0xFFFFFFFF
      (fun _ => 0) usbIdle).2.1 0 = 0 := by
  refine ⟨?_, ?_, ?_, ?_, ?_, ?_⟩ <;> decide

/-- C16 (amended): for every length `n` below `2 ^ 31` (the loop bound is the
`int` value of the length) and every outcome of the polls, with `k` the number
of polls that succeed before the first timeout (`k = n` when the bridge always
shows data): `USB_readPayload(n, buf)` reads exactly `k` bytes from the data
pipe, the log showing `k` successful polls each followed by a read and then the
failed poll if `k < n`; `buf[0..k)` holds those bytes in arrival order,
`buf[k..]` is unchanged, and the result is `TRUE` if `k = n` and
`USB_ERROR_FLAG` otherwise. -/
theorem C16_read_payload (cfg : USBConfig) (bus : Bus) (n : Nat) (buf : Nat → Nat)
    (s : USBState) (hn : n < 2 ^ 31) (hbytes : ∀ r, bus.dataAt r < 256) :
    payloadPolls cfg bus n s ≤ n ∧
    ((∀ a b c, bus.statusAt a b c &&& cfg.USB_DATA_AVAILABLE ≠ 0) →
      payloadPolls cfg bus n s = n) ∧
    ((USB_pollDataAvailable cfg bus s).1 = false → payloadPolls cfg bus n s = 0) ∧
    (USB_readPayload cfg bus n buf s).2.2.dataReads = s.dataReads + payloadPolls cfg bus n s ∧
    (USB_readPayload cfg bus n buf s).2.2.dataWrites = s.dataWrites ∧
    (USB_readPayload cfg bus n buf s).2.2.log
      = s.log ++ recvTrace (delivered bus s.dataReads (payloadPolls cfg bus n s))
          ++ (if payloadPolls cfg bus n s < n then [USBEvent.pollData false] else []) ∧
    (∀ m, m < payloadPolls cfg bus n s →
      (USB_readPayload cfg bus n buf s).2.1 m = bus.dataAt (s.dataReads + m)) ∧
    (∀ j, payloadPolls cfg bus n s ≤ j → (USB_readPayload cfg bus n buf s).2.1 j = buf j) ∧
    (USB_readPayload cfg bus n buf s).1
      = (if payloadPolls cfg bus n s = n then (TRUE : Int) else cfg.USB_ERROR_FLAG) := by
  have hsz : (toSigned (n : Int)).toNat = n := by
    rw [toSigned_of_lt n hn]
    exact Int.toNat_ofNat n
  have hre : USB_readPayload cfg bus n buf s = readPayloadLoop cfg bus n 0 buf s := by
    unfold USB_readPayload
    simp only [hsz]
  obtain ⟨hk, h1, h2, h3, h4, h5, h6⟩ := readPayloadLoop_spec cfg bus n 0 buf s
  rw [← hre] at h1 h2 h3 h4 h5 h6
  refine ⟨hk, payloadPolls_of_ready cfg bus n s, payloadPolls_of_timeout cfg bus n s,
    h1, h2, h3, ?_, ?_, h6⟩
  · intro m hm
    have := h4 m hm
    rw [Nat.zero_add, toUnsigned_of_lt _ (by have := hbytes (s.dataReads + m); omega)] at this
    exact this
  · intro j hj
    exact h5 j (Or.inr (by omega))

/-- C16 (witness): five bytes `1, 2, 3, 4, 5` requested from a bridge that
always has data: all five polls succeed, the five bytes are read and stored in
order, the rest of the buffer is untouched and the result is `TRUE`. -/
theorem C16_read_payload_witness :
    (5 : Nat) < 2 ^ 31 ∧
    (∀ r, (readyBus [1, 2, 3, 4, 5]).dataAt r < 256) ∧
    payloadPolls demoUSB (readyBus [1, 2, 3, 4, 5]) 5 usbIdle = 5 ∧
    (USB_readPayload demoUSB (readyBus [1, 2, 3, 4, 5]) 5 (fun _ => 0) usbIdle).1
      = (TRUE : Int) ∧
    (USB_readPayload demoUSB (readyBus [1, 2, 3, 4, 5]) 5 (fun _ => 0) usbIdle).2.2.dataReads
      = 5 ∧
    (∀ m, m < 5 →
      (USB_readPayload demoUSB (readyBus [1, 2, 3, 4, 5]) 5 (fun _ => 0) usbIdle).2.1 m
        = (readyBus [1, 2, 3, 4, 5]).dataAt m) ∧
    (∀ j, 5 ≤ j →
      (USB_readPayload demoUSB (readyBus [1, 2, 3, 4, 5]) 5 (fun _ => 0) usbIdle).2.1 j = 0) := by
  have h := C16_read_payload demoUSB (readyBus [1, 2, 3, 4, 5]) 5 (fun _ => 0) usbIdle
    (by decide) (readyBus_bytes [1, 2, 3, 4, 5] (by decide))
  have hk : payloadPolls demoUSB (readyBus [1, 2, 3, 4, 5]) 5 usbIdle = 5 :=
    h.2.1 (fun _ _ _ => (by decide : (0xffff : Nat) &&& 1 ≠ 0))
  obtain ⟨_, _, _, h1, _, _, h4, h5, h6⟩ := h
  rw [hk] at h1 h4 h5 h6
  refine ⟨by decide, readyBus_bytes [1, 2, 3, 4, 5] (by decide), hk, ?_, ?_, ?_, h5⟩
  · rw [h6]; rfl
  · rw [h1]; rfl
  · intro m hm
    have := h4 m hm
    rw [show usbIdle.dataReads + m = m from Nat.zero_add m] at this
    exact this

/-- What the packet-read helpers do when a poll times out: each returns the
error flag (converted to its result type) and reads no further byte. -/
theorem packet_helpers_on_timeout (cfg : USBConfig) (bus : Bus) (s : USBState) :
    ((USB_pollDataAvailable cfg bus s).1 = false →
      USB_readStartOfPacket cfg bus s
        = (toBool cfg.USB_ERROR_FLAG, (USB_pollDataAvailable cfg bus s).2) ∧
      USB_readPacketSize cfg bus s
        = (toUnsigned cfg.USB_ERROR_FLAG, (USB_pollDataAvailable cfg bus s).2) ∧
      (USB_pollDataAvailable cfg bus s).2.dataReads = s.dataReads) ∧
    ((USB_pollDataAvailable cfg bus s).1 = true →
      (USB_pollDataAvailable cfg bus
        (USB_access bus (USB_pollDataAvailable cfg bus s).2
          USBPort.USB_DATA_PIPE USBDir.USB_READ 0).2).1 = false →
      (USB_readPacketSize cfg bus s).1 = toUnsigned cfg.USB_ERROR_FLAG ∧
      (USB_readPacketSize cfg bus s).2.dataReads = s.dataReads + 1) := by
  constructor
  · intro hp
    refine ⟨?_, ?_, (pollData_frame cfg bus s).1⟩
    · simp only [USB_readStartOfPacket, hp, if_true]
    · simp only [USB_readPacketSize, hp, if_true]
  · intro hp1 hp2
    obtain ⟨_, a2, _, _⟩ := poll_then_read cfg bus s
    have g1 := (pollData_frame cfg bus
      (USB_access bus (USB_pollDataAvailable cfg bus s).2
        USBPort.USB_DATA_PIPE USBDir.USB_READ 0).2).1
    rw [a2] at g1
    have hres : USB_readPacketSize cfg bus s
        = (toUnsigned cfg.USB_ERROR_FLAG,
           (USB_pollDataAvailable cfg bus
            (USB_access bus (USB_pollDataAvailable cfg bus s).2
              USBPort.USB_DATA_PIPE USBDir.USB_READ 0).2).2) := by
      simp only [USB_readPacketSize, hp1, hp2, Bool.true_eq_false, if_false, if_true]
    rw [hres]
    exact ⟨rfl, g1⟩

/-- C17 (evaluation at the failing input): `USB_readStartOfPacket` on a bridge
that never shows data times out without reading a byte and returns the error
flag through its `bool` result, which is `true`: the same result as a
successful read of the start-of-packet marker. With an error flag of zero the
result would instead equal that of a successful read of any other byte. -/
theorem C17_start_of_packet_error_not_distinguishable :
    (USB_readStartOfPacket demoUSB silentBus usbIdle).2.log = [USBEvent.pollData false] ∧
    (USB_readStartOfPacket demoUSB silentBus usbIdle).2.dataReads = 0 ∧
    (USB_readStartOfPacket demoUSB (readyBus [0x55]) usbIdle).2.log
      = [USBEvent.pollData true, USBEvent.read 0x55] ∧
    (USB_readStartOfPacket demoUSB silentBus usbIdle).1
      = (USB_readStartOfPacket demoUSB (readyBus [0x55]) usbIdle).1 ∧
    (USB_readStartOfPacket zeroFlagUSB (readyBus [0x54]) usbIdle).2.log
      = [USBEvent.pollData true, USBEvent.read 0x54] ∧
    (USB_readStartOfPacket zeroFlagUSB silentBus usbIdle).1
      = (USB_readStartOfPacket zeroFlagUSB (readyBus [0x54]) usbIdle).1 := by
  refine ⟨?_, ?_, ?_, ?_, ?_, ?_⟩ <;> decide

end ADCFirmware
